import Mathlib

/-!
Verification of the xk6-client-prometheus-remote core (remote_write.go).

Go strings and byte slices are modelled as `List Nat` (one entry per byte);
Go `int`/`int64` as `Int` with explicit wrapping where Go wraps; `float64`
sample values by their IEEE-754 bit pattern (a `Nat`), since the encoder and
the reference marshaller only ever move the bits.  A Go runtime panic is a
distinguished outcome `GoResult.panicked`, a returned `error` is
`GoResult.err`.
-/

/-- Outcome of a Go function call: a value, a returned error, or a runtime
panic (index out of range, integer division by zero, `make` with negative
length, ...). -/
inductive GoResult (α : Type) where
  | ok : α → GoResult α
  | err : String → GoResult α
  | panicked : GoResult α
  deriving DecidableEq

/-- True on `err`. -/
def GoResult.isErrB {α : Type} : GoResult α → Bool
  | .err _ => true
  | _ => false

/-- Length of the payload list of an `ok` result, 0 otherwise. -/
def okLength {α : Type} : GoResult (List α) → Nat
  | .ok l => l.length
  | _ => 0

/-- Fuel-driven helper for `natDecimal` (structural recursion, so that the
kernel can evaluate it); the fuel is always sufficient when ≥ the number. -/
def natDecimalF : Nat → Nat → List Nat
  | 0, n => [48 + n]
  | f + 1, n => if n < 10 then [48 + n] else natDecimalF f (n / 10) ++ [48 + n % 10]

/-- Decimal digits (ASCII bytes) of a natural number, as produced by Go
`strconv.AppendInt` for non-negative values. -/
def natDecimal (n : Nat) : List Nat :=
  natDecimalF n n

/-- ASCII bytes of `strconv.AppendInt(b, v, 10)`: optional minus sign then
decimal digits. -/
def goIntBytes (v : Int) : List Nat :=
  if v < 0 then 45 :: natDecimal v.natAbs else natDecimal v.toNat

/-- Fuel-driven helper for `varint` (structural recursion). -/
def varintF : Nat → Nat → List Nat
  | 0, v => [v]
  | f + 1, v => if v < 128 then [v] else (v % 128 + 128) :: varintF f (v / 128)

/-- `protowire.AppendVarint`: base-128 varint, least significant group first,
high bit set on every byte but the last. -/
def varint (v : Nat) : List Nat :=
  varintF v v

/-- `binary.LittleEndian.PutUint64`: the 8 little-endian bytes of a 64-bit
word. -/
def le64 (bits : Nat) : List Nat :=
  [bits % 256, bits / 256 % 256, bits / 65536 % 256, bits / 16777216 % 256,
   bits / 4294967296 % 256, bits / 1099511627776 % 256,
   bits / 281474976710656 % 256, bits / 72057594037927936 % 256]

/-- The value of a Go `int64` reinterpreted as `uint64` (two's complement). -/
def toU64 (t : Int) : Nat :=
  (t % (18446744073709551616 : Int)).toNat

/-- Whether a `float64` with this bit pattern compares equal to 0 in Go
(`m.Value != 0` in the generated marshaller): the patterns of +0.0 and
-0.0. -/
def floatIsZero (bits : Nat) : Bool :=
  bits % 18446744073709551616 == 0 || bits % 18446744073709551616 == 9223372036854775808

/-- Go `/` on `int64`: truncated division; division by zero panics; the one
overflowing case `MinInt64 / -1` wraps to `MinInt64` per the Go spec. -/
def goDiv (a b : Int) : Option Int :=
  if b = 0 then none
  else if a = -9223372036854775808 ∧ b = -1 then some a
  else some (a.tdiv b)

/-- Go `%` on `int64`: truncated remainder (sign of the dividend); modulus
zero panics. -/
def goMod (a b : Int) : Option Int :=
  if b = 0 then none else some (a.tmod b)

/-- Whether `pat` is an initial segment of `s` (byte-wise). -/
def listStartsWith : List Nat → List Nat → Bool
  | [], _ => true
  | _ :: _, [] => false
  | a :: ps, b :: ss => a == b && listStartsWith ps ss

/-- Go `strings.Index`: index of the first occurrence of `pat` in `s`, or
`none`. -/
def strIndex (pat : List Nat) : List Nat → Option Nat
  | [] => if listStartsWith pat [] then some 0 else none
  | a :: t =>
    if listStartsWith pat (a :: t) then some 0
    else (strIndex pat t).map (· + 1)

/-- The Go slice `l[a:b]`. -/
def seg (l : List Nat) (a b : Nat) : List Nat :=
  (l.take b).drop a

/-- Numeric value of a list of ASCII decimal digit bytes. -/
def digitsToNat (ds : List Nat) : Nat :=
  ds.foldl (fun acc c => acc * 10 + (c - 48)) 0

/-- Go `strconv.Atoi` (= `ParseInt(s, 10, 0)` on a 64-bit platform): optional
sign, then at least one decimal digit and nothing else, result within the
`int64` range; `none` models the returned parse error. -/
def goAtoi (s : List Nat) : Option Int :=
  match s with
  | 43 :: ds => goAtoiDigits false ds
  | 45 :: ds => goAtoiDigits true ds
  | ds => goAtoiDigits false ds
where
  goAtoiDigits (neg : Bool) (ds : List Nat) : Option Int :=
    if ds.isEmpty then none
    else if ds.all (fun c => decide (48 ≤ c ∧ c ≤ 57)) then
      let v : Int := if neg then -(digitsToNat ds : Int) else (digitsToNat ds : Int)
      if -9223372036854775808 ≤ v ∧ v ≤ 9223372036854775807 then some v else none
    else none

/-- The bytes of the literal substring searched for by `compileTemplate`;
spelled out: dollar, open brace, "series_id". -/
def sidPat : List Nat :=
  [36, 123, 115, 101, 114, 105, 101, 115, 95, 105, 100]

/-- The data captured by a compiled label generator closure: the identity
generator (no substitution), the plain series-id splice, the modulo form with
its precomputed table of output strings, and the division form. -/
inductive GenKind where
  | ident : List Nat → GenKind
  | sid : List Nat → List Nat → GenKind
  | mod : List (List Nat) → Int → GenKind
  | div : List Nat → List Nat → Int → GenKind
  deriving DecidableEq

/-- The mutable state held inside a division generator closure: `none` models
a nil `memoize` slice, otherwise the pair (`memoizeValue`, `memoize`). -/
structure GenState where
  memo : Option (Int × List Nat)
  deriving DecidableEq

/-- `compileTemplate`, translated case by case from the source.  Byte 125 is
the closing brace, 37 is the percent sign, 47 is the slash. -/
def compileTemplate (template : List Nat) : GoResult GenKind :=
  match strIndex sidPat template with
  | none => .ok (.ident template)
  | some i =>
    match (template.drop (i + 11)).head? with
    | none => .panicked
    | some c =>
      if c = 125 then
        .ok (.sid (template.take i) (template.drop (i + 12)))
      else if c = 37 then
        match strIndex [125] (template.drop i) with
        | none => .err "no closing bracket in template"
        | some e =>
          match goAtoi (seg template (i + 12) (i + e)) with
          | none => .err "cannot parse divisor of the module operator"
          | some d =>
            if d < 0 then .panicked
            else
              .ok (.mod
                ((List.range d.toNat).map fun j =>
                  template.take i ++ natDecimal j ++ template.drop (i + e + 1)) d)
      else if c = 47 then
        match strIndex [125] (template.drop i) with
        | none => .err "no closing bracket in template"
        | some e =>
          match goAtoi (seg template (i + 12) (i + e)) with
          | none => .err "strconv parse error"
          | some d => .ok (.div (template.take i) (template.drop (i + e + 1)) d)
      else .err "unsupported template"

/-- A compiled (name, generator) pair together with the generator closure's
mutable state. -/
structure CompiledTemplate where
  name : List Nat
  kind : GenKind
  st : GenState
  deriving DecidableEq

/-- The `labelTemplates` value: the sorted compiled templates plus the shared
scratch buffer `labelValue` (its current byte content). -/
structure TemplateSet where
  compiledTemplates : List CompiledTemplate
  labelValue : List Nat
  deriving DecidableEq

/-- Compilation loop of `compileLabelTemplates` over the map's iteration
order, aborting on the first error. -/
def compileList : List (List Nat × List Nat) → GoResult (List CompiledTemplate)
  | [] => .ok []
  | (k, v) :: t =>
    match compileTemplate v with
    | .panicked => .panicked
    | .err e => .err ("error while compiling template, " ++ e)
    | .ok kind =>
      match compileList t with
      | .panicked => .panicked
      | .err e => .err e
      | .ok rest => .ok ({ name := k, kind := kind, st := ⟨none⟩ } :: rest)

instance : DecidableRel (fun a b : CompiledTemplate => a.name ≤ b.name) :=
  fun a b => inferInstanceAs (Decidable (a.name ≤ b.name))

/-- `compileLabelTemplates`: compile every entry, sort ascending by name
(`sort.Slice`; modelled by insertion sort, which agrees whenever the names
are distinct, as map keys are), and allocate the 128-byte zeroed scratch
buffer. -/
def compileLabelTemplates (m : List (List Nat × List Nat)) : GoResult TemplateSet :=
  match compileList m with
  | .panicked => .panicked
  | .err e => .err e
  | .ok cts =>
    .ok { compiledTemplates := List.insertionSort (fun a b => a.name ≤ b.name) cts,
          labelValue := List.replicate 128 0 }

-- scratch checks (to be removed)

/-- `labelGenerator.AppendByte`: append the evaluated label value for
`seriesID` to `b`, threading the closure's mutable state.  The modulo form
indexes the precomputed table (panicking on a negative or out-of-range
index, exactly as the Go slice indexing does); the division form memoizes
the last quotient and its rendered bytes. -/
def appendByte (kind : GenKind) (st : GenState) (b : List Nat) (sid : Int) :
    GoResult (GenState × List Nat) :=
  match kind with
  | .ident t => .ok (st, b ++ t)
  | .sid pre suf => .ok (st, b ++ pre ++ goIntBytes sid ++ suf)
  | .mod table d =>
    match goMod sid d with
    | none => .panicked
    | some idx =>
      if idx < 0 then .panicked
      else if h : idx.toNat < table.length then .ok (st, b ++ table.get ⟨idx.toNat, h⟩)
      else .panicked
  | .div pre suf d =>
    match goDiv sid d with
    | none => .panicked
    | some value =>
      match st.memo with
      | some (mv, mb) =>
        if value = mv then .ok (st, b ++ mb)
        else .ok (⟨some (value, pre ++ goIntBytes value ++ suf)⟩,
                  b ++ pre ++ goIntBytes value ++ suf)
      | none => .ok (⟨some (value, pre ++ goIntBytes value ++ suf)⟩,
                     b ++ pre ++ goIntBytes value ++ suf)

/-- The denotation of a generator: the bytes it appends for a given series
id, `none` when evaluation panics (zero modulus/divisor, negative table
index). -/
def evalPure (kind : GenKind) (sid : Int) : Option (List Nat) :=
  match kind with
  | .ident t => some t
  | .sid pre suf => some (pre ++ goIntBytes sid ++ suf)
  | .mod table d =>
    match goMod sid d with
    | none => none
    | some idx => if idx < 0 then none else table.get? idx.toNat
  | .div pre suf d => (goDiv sid d).map fun v => pre ++ goIntBytes v ++ suf

/-- Closure-state invariant: a division generator's memo, when set, holds
exactly the rendered bytes of its memoized quotient.  Every state reachable
from a fresh compilation satisfies this. -/
def goodB (kind : GenKind) (st : GenState) : Bool :=
  match kind, st.memo with
  | .div pre suf _, some (_mv, mb) => mb == pre ++ goIntBytes _mv ++ suf
  | _, _ => true

/-- All generator states of the template set satisfy the memo invariant. -/
def tsGood (ts : TemplateSet) : Prop :=
  ∀ ct ∈ ts.compiledTemplates, goodB ct.kind ct.st = true

/-- The immutable part of a template set: the (name, generator) pairs
without the mutable closure states and scratch buffer. -/
def statics (ts : TemplateSet) : List (List Nat × GenKind) :=
  ts.compiledTemplates.map fun ct => (ct.name, ct.kind)

/-- Wire bytes of one `prompb.Label` submessage with both fields present:
tag 0x0a + name, tag 0x12 + value. -/
def labelMsg (name v : List Nat) : List Nat :=
  10 :: (varint name.length ++ name ++ 18 :: (varint v.length ++ v))

/-- A label submessage framed as one entry of `TimeSeries.labels`. -/
def labelBytes (name v : List Nat) : List Nat :=
  10 :: (varint (labelMsg name v).length ++ labelMsg name v)

/-- Wire bytes of one `prompb.Sample` submessage with both fields present:
tag 0x09 + fixed64 value bits, tag 0x10 + varint timestamp. -/
def sampleMsg (bits : Nat) (t : Int) : List Nat :=
  9 :: (le64 bits ++ 16 :: varint (toU64 t))

/-- A sample submessage framed as one entry of `TimeSeries.samples`. -/
def sampleFrame (bits : Nat) (t : Int) : List Nat :=
  18 :: (varint (sampleMsg bits t).length ++ sampleMsg bits t)

/-- One iteration of the label loop in `writeFor`: build the scratch slice
(`varint(len name)`, value bytes, `varint(len value)`, `varint(label
message len)`), producing the updated closure state, the scratch content
left behind, and the bytes written to the output stream. -/
def labelStep (sid : Int) (ct : CompiledTemplate) :
    GoResult (CompiledTemplate × List Nat × List Nat) :=
  let lv1 := varint ct.name.length
  let n1 := lv1.length
  match appendByte ct.kind ct.st lv1 sid with
  | .panicked => .panicked
  | .err e => .err e
  | .ok (st2, lv2) =>
    let n2 := lv2.length
    let lv3 := lv2 ++ varint (n2 - n1)
    let n3 := lv3.length
    let lv4 := lv3 ++ varint (n3 + 1 + 1 + ct.name.length)
    .ok ({ ct with st := st2 }, lv4,
      10 :: (lv4.drop n3 ++ 10 :: (lv4.take n1 ++ ct.name ++
        18 :: (seg lv4 n2 n3 ++ seg lv4 n1 n2))))

/-- The label loop of `writeFor`: each iteration truncates the scratch
slice to length 0 and rebuilds it, so only the last iteration's content
survives in the buffer. -/
def labelLoop (sid : Int) :
    List CompiledTemplate → List Nat → GoResult (List CompiledTemplate × List Nat × List Nat)
  | [], lv => .ok ([], lv, [])
  | ct :: rest, _lv =>
    match labelStep sid ct with
    | .panicked => .panicked
    | .err e => .err e
    | .ok (ct2, lv4, out) =>
      match labelLoop sid rest lv4 with
      | .panicked => .panicked
      | .err e => .err e
      | .ok (rest2, lvF, outR) => .ok (ct2 :: rest2, lvF, out ++ outR)

/-- `l` padded with zeros to length exactly `n` after truncation; models a
reslice `l[:n]` whose stale tail is irrelevant because it is fully
overwritten before being read. -/
def takePad (n : Nat) (l : List Nat) : List Nat :=
  l.take n ++ List.replicate (n - l.length) 0

/-- `writeFor`: one time series straight into wire format.  After the label
loop, the scratch slice is resliced to `[:10]` (exposing stale buffer
bytes, all ten of which are immediately overwritten by the sample value and
tags), the timestamp varint is appended, and the sample message is framed
by writing forward and prefixing the length after the fact.  Returns the
updated template set (new closure states, new buffer content) and the bytes
written to the output stream. -/
def sampleLvT (σ lv : List Nat) (bits : Nat) (t : Int) : List Nat :=
  let arr := lv ++ σ.drop lv.length
  let b0 := takePad 10 arr
  let b1 := b0.set 0 9
  let b2 := b1.take 1 ++ le64 bits ++ b1.drop 9
  let b3 := b2.set 9 16
  b3 ++ varint (toU64 t)

def writeFor (ts : TemplateSet) (bits : Nat) (sid : Int) (t : Int) :
    GoResult (TemplateSet × List Nat) :=
  match labelLoop sid ts.compiledTemplates ts.labelValue with
  | .panicked => .panicked
  | .err e => .err e
  | .ok (cts, lv, outLabels) =>
    let lvT := sampleLvT ts.labelValue lv bits t
    let n := lvT.length
    let lvF := (lvT ++ [18]) ++ varint n
    .ok ({ compiledTemplates := cts, labelValue := lvF },
      outLabels ++ (lvF.drop n ++ lvF.take n))

/-- Output bytes of a `writeFor` call, dropping the updated state. -/
def resBytes : GoResult (TemplateSet × List Nat) → GoResult (List Nat)
  | .ok (_, o) => .ok o
  | .err e => .err e
  | .panicked => .panicked

/-- An optional byte string as a call outcome (`none` = panic). -/
def ofOpt : Option (List Nat) → GoResult (List Nat)
  | some o => .ok o
  | none => .panicked

/-- Label bytes emitted by `writeFor` as a function of the immutable
(name, generator) pairs only; `none` when some generator evaluation
panics. -/
def labelsOpt (sid : Int) : List (List Nat × GenKind) → Option (List Nat)
  | [] => some []
  | (n, k) :: rest =>
    match evalPure k sid, labelsOpt sid rest with
    | some v, some r => some (labelBytes n v ++ r)
    | _, _ => none

/-- The full `writeFor` output as a function of the immutable data only. -/
def writeForOpt (l : List (List Nat × GenKind)) (bits : Nat) (sid t : Int) :
    Option (List Nat) :=
  (labelsOpt sid l).map (· ++ sampleFrame bits t)

/-- The ascending list of `Int`s in `[a, b)`. -/
def intRangeGo : Int → Nat → List Int
  | _, 0 => []
  | a, n + 1 => a :: intRangeGo (a + 1) n

/-- The ascending list of the integers in the half-open interval
`[a, b)`. -/
def intRangeList (a b : Int) : List Int :=
  intRangeGo a (b - a).toNat

/-- The series loop of `generateFromPrecompiledTemplates`: one `writeFor`
per series id, each framed by tag 0x0a and its varint length; `vals i` is
the bit pattern of the i-th random sample value drawn from
`valueBetween`. -/
def genLoop (vals : Nat → Nat) (t : Int) :
    List Int → Nat → TemplateSet → GoResult (TemplateSet × List Nat)
  | [], _, ts => .ok (ts, [])
  | sid :: rest, i, ts =>
    match writeFor ts (vals i) sid t with
    | .panicked => .panicked
    | .err e => .err e
    | .ok (ts2, out) =>
      match genLoop vals t rest (i + 1) ts2 with
      | .panicked => .panicked
      | .err e => .err e
      | .ok (tsF, outR) => .ok (tsF, (10 :: (varint out.length ++ out)) ++ outR)

/-- `generateFromPrecompiledTemplates`: the first series (`minSeriesID`) is
encoded unconditionally before the loop, then the loop covers
`minSeriesID+1 ..< maxSeriesID`.  Randomness is abstracted as the oracle
stream `vals` of drawn value bit patterns. -/
def generateFromPrecompiledTemplates (vals : Nat → Nat) (t : Int)
    (minSID maxSID : Int) (ts : TemplateSet) : GoResult (List Nat) :=
  match genLoop vals t (minSID :: intRangeList (minSID + 1) maxSID) 0 ts with
  | .panicked => .panicked
  | .err e => .err e
  | .ok (_, out) => .ok out

/-- A `prompb.Label`. -/
structure PLabel where
  pname : List Nat
  pvalue : List Nat
  deriving DecidableEq

/-- A `prompb.Sample`; the float64 value is carried as its bit pattern. -/
structure PSample where
  valueBits : Nat
  timestamp : Int
  deriving DecidableEq

/-- A `prompb.TimeSeries`. -/
structure PTimeSeries where
  labels : List PLabel
  samples : List PSample
  deriving DecidableEq

/-- Reference marshaller for one `prompb.Label`, per the proto3 wire rules
implemented by the generated prompb code that `proto.Marshal` dispatches
to: scalar fields equal to the zero value (empty strings here) are omitted,
fields appear in ascending field-number order. -/
def marshalLabel (l : PLabel) : List Nat :=
  (if l.pname.isEmpty then [] else 10 :: (varint l.pname.length ++ l.pname)) ++
    (if l.pvalue.isEmpty then [] else 18 :: (varint l.pvalue.length ++ l.pvalue))

/-- Reference marshaller for one `prompb.Sample`: a value whose float64
compares equal to 0 and a zero timestamp are omitted. -/
def marshalSample (s : PSample) : List Nat :=
  (if floatIsZero s.valueBits then [] else 9 :: le64 s.valueBits) ++
    (if s.timestamp = 0 then [] else 16 :: varint (toU64 s.timestamp))

/-- Reference marshaller for one `prompb.TimeSeries`: every entry of a
repeated message field is framed with its tag and length, even when its
body is empty. -/
def marshalTimeSeries (ts : PTimeSeries) : List Nat :=
  (ts.labels.map fun l => 10 :: (varint (marshalLabel l).length ++ marshalLabel l)).flatten ++
    (ts.samples.map fun s => 18 :: (varint (marshalSample s).length ++ marshalSample s)).flatten

/-- Reference marshaller for a `prompb.WriteRequest` (`proto.Marshal`):
the repeated `timeseries` field, each entry framed with tag 0x0a and its
length. -/
def marshalWriteRequest (l : List PTimeSeries) : List Nat :=
  (l.map fun ts => 10 :: (varint (marshalTimeSeries ts).length ++ marshalTimeSeries ts)).flatten

/-- The `prompb.WriteRequest` contents that the claim takes as reference:
for each series id, one `TimeSeries` whose labels are the compiled (name,
evaluated value) pairs in compiled (sorted) order and whose single sample
carries the i-th drawn value and the shared timestamp.  The compiled pairs
are given as the immutable `statics` list. -/
def refSeries (S : List (List Nat × GenKind)) (vals : Nat → Nat) (t : Int) :
    List Int → Nat → List PTimeSeries
  | [], _ => []
  | sid :: rest, i =>
    { labels := S.map fun nk => ⟨nk.1, (evalPure nk.2 sid).getD []⟩,
      samples := [⟨vals i, t⟩] } :: refSeries S vals t rest (i + 1)

/-- The per-series bytes of `writeFor` as a pure function of the immutable
(name, generator) pairs (valid once every generator evaluation is known to
succeed). -/
def writeForPure (S : List (List Nat × GenKind)) (bits : Nat) (sid t : Int) :
    List Nat :=
  (S.map fun nk => labelBytes nk.1 ((evalPure nk.2 sid).getD [])).flatten ++
    sampleFrame bits t

/-- The framed per-series byte strings emitted by the generation loop for a
given series-id list, starting at value-stream index `i`. -/
def framedPure (S : List (List Nat × GenKind)) (vals : Nat → Nat) (t : Int) :
    List Int → Nat → List (List Nat)
  | [], _ => []
  | sid :: rest, i =>
    (10 :: (varint (writeForPure S (vals i) sid t).length ++
      writeForPure S (vals i) sid t)) :: framedPure S vals t rest (i + 1)

/-- Template-set states reachable from `ts0` by a sequence of successful
`writeFor` calls (the mutations "previous calls" can have performed). -/
inductive Reach : TemplateSet → TemplateSet → Prop
  | refl (ts : TemplateSet) : Reach ts ts
  | step {ts0 ts ts2 : TemplateSet} {out : List Nat} {bits : Nat} {sid t : Int} :
      Reach ts0 ts → writeFor ts bits sid t = .ok (ts2, out) → Reach ts0 ts2

/-- A `Label` of the generic (non-streaming) path. -/
structure Label where
  lname : List Nat
  lvalue : List Nat
  deriving DecidableEq

/-- A `Sample` of the generic path; the float64 value is carried as its bit
pattern. -/
structure Sample where
  valueBits : Nat
  timestamp : Int
  deriving DecidableEq

/-- A `Timeseries` of the generic path. -/
structure Timeseries where
  Labels : List Label
  Samples : List Sample
  deriving DecidableEq

/-- `FromTimeseriesToPrometheusTimeseries`: copy labels verbatim; replace a
sample timestamp that is exactly 0 by the current wall-clock milliseconds
(`now`, a parameter of the model) and keep every other sample unchanged. -/
def FromTimeseriesToPrometheusTimeseries (now : Int) (ts : Timeseries) : PTimeSeries :=
  { labels := ts.Labels.foldl (fun acc l => acc ++ [⟨l.lname, l.lvalue⟩]) [],
    samples := ts.Samples.foldl
      (fun acc s => acc ++ [⟨s.valueBits, if s.timestamp = 0 then now else s.timestamp⟩]) [] }

/-- ASCII bytes of the literal "k6_generated_metric_". -/
def k6MetricNameBytes : List Nat :=
  [107, 54, 95, 103, 101, 110, 101, 114, 97, 116, 101, 100, 95, 109, 101, 116, 114, 105, 99, 95]

/-- ASCII bytes of the literal "series_id". -/
def seriesIdLabelBytes : List Nat :=
  [115, 101, 114, 105, 101, 115, 95, 105, 100]

/-- ASCII bytes of the literal "__name__". -/
def nameLabelBytes : List Nat :=
  [95, 95, 110, 97, 109, 101, 95, 95]

/-- `generateSeries` (the generator behind `StoreGenerated`).  The
cardinality labels (computed in Go with float64 `Log10`/`Pow`) are
abstracted as the parameter `cardLabels`, and the random sample values as
the oracle stream `randVals`; neither affects the counting and error
behaviour under verification. -/
def generateSeries (cardLabels : Int → Int → List Label) (randVals : Nat → Nat)
    (timestamp : Int) (totalSeries batches batchSize batch : Int) :
    GoResult (List Timeseries) :=
  if totalSeries = 0 then .ok []
  else if batch > batches then .err "batch must be in the range of batches"
  else
    match goDiv totalSeries batches with
    | none => .panicked
    | some q =>
      if q ≠ batchSize then
        .err "total_series must divide evenly into batches of size batch_size"
      else if batchSize < 0 then .panicked
      else
        .ok ((List.range batchSize.toNat).map fun (i : Nat) =>
          let seriesID : Int := batchSize * (batch - 1) + (i : Int)
          { Labels := cardLabels totalSeries seriesID ++
              [⟨nameLabelBytes, k6MetricNameBytes ++ goIntBytes seriesID⟩,
               ⟨seriesIdLabelBytes, goIntBytes seriesID⟩],
            Samples := [⟨randVals i, timestamp⟩] })

instance : IsTotal CompiledTemplate (fun a b => a.name ≤ b.name) :=
  ⟨fun a b => le_total a.name b.name⟩

instance : IsTrans CompiledTemplate (fun a b => a.name ≤ b.name) :=
  ⟨fun _ _ _ => le_trans⟩

-- ----------------------------------------------------------------------
-- Theorems
-- ----------------------------------------------------------------------

theorem natDecimalF_congr : ∀ f g n : Nat, n ≤ f → n ≤ g →
    natDecimalF f n = natDecimalF g n := by
  intro f
  induction f with
  | zero =>
    intro g n hf _
    interval_cases n
    cases g <;> simp [natDecimalF]

  | succ f ih =>
    intro g n hf hg
    by_cases h : n < 10
    · cases g <;> simp [natDecimalF, h]
    · have hn : 0 < n := by omega
      cases g with
      | zero => omega
      | succ g =>
        simp only [natDecimalF, if_neg h]
        have hd : n / 10 < n := Nat.div_lt_self hn (by omega)
        rw [ih g (n / 10) (by omega) (by omega)]

/-- The recursion `natDecimal` actually satisfies. -/
theorem natDecimal_unfold (n : Nat) :
    natDecimal n = if n < 10 then [48 + n] else natDecimal (n / 10) ++ [48 + n % 10] := by
  by_cases h : n < 10
  · unfold natDecimal
    cases n <;> simp [natDecimalF, h]
  · have hn : 0 < n := by omega
    obtain ⟨m, rfl⟩ : ∃ m, n = m + 1 := ⟨n - 1, by omega⟩
    have hd : (m + 1) / 10 < m + 1 := Nat.div_lt_self hn (by omega)
    simp only [natDecimal, natDecimalF, if_neg h]
    rw [natDecimalF_congr m ((m + 1) / 10) ((m + 1) / 10) (by omega) le_rfl]

theorem varintF_congr : ∀ f g v : Nat, v ≤ f → v ≤ g →
    varintF f v = varintF g v := by
  intro f
  induction f with
  | zero =>
    intro g v hf _
    interval_cases v
    cases g <;> simp [varintF]
  | succ f ih =>
    intro f' v hf hg
    by_cases h : v < 128
    · cases f' <;> simp [varintF, h]
    · have hv : 0 < v := by omega
      cases f' with
      | zero => omega
      | succ f' =>
        simp only [varintF, if_neg h]
        have hd : v / 128 < v := Nat.div_lt_self hv (by omega)
        rw [ih f' (v / 128) (by omega) (by omega)]

/-- The recursion `varint` actually satisfies. -/
theorem varint_unfold (v : Nat) :
    varint v = if v < 128 then [v] else (v % 128 + 128) :: varint (v / 128) := by
  by_cases h : v < 128
  · unfold varint
    rcases Nat.eq_zero_or_pos v with rfl | hv
    · simp [varintF]
    · obtain ⟨m, rfl⟩ : ∃ m, v = m + 1 := ⟨v - 1, by omega⟩
      simp [varintF, h]
  · have hv : 0 < v := by omega
    obtain ⟨m, rfl⟩ : ∃ m, v = m + 1 := ⟨v - 1, by omega⟩
    have hd : (m + 1) / 128 < m + 1 := Nat.div_lt_self hv (by omega)
    simp only [varint, varintF, if_neg h]
    rw [varintF_congr m ((m + 1) / 128) ((m + 1) / 128) (by omega) le_rfl]

theorem foldl_append_eq_map {α β : Type} (f : α → β) :
    ∀ (l : List α) (init : List β),
      l.foldl (fun acc x => acc ++ [f x]) init = init ++ l.map f := by
  intro l
  induction l with
  | nil => intro init; simp
  | cons a t ih => intro init; simp [ih]

/-- C6: `FromTimeseriesToPrometheusTimeseries` replaces exactly the samples
whose timestamp is 0 by the wall-clock time (the model parameter `now`),
leaves every nonzero-timestamp sample unchanged (value and timestamp), and
copies the labels verbatim. -/
theorem fromTimeseries_zero_timestamp_substitution (now : Int) (ts : Timeseries) :
    (FromTimeseriesToPrometheusTimeseries now ts).samples =
      ts.Samples.map (fun s =>
        ⟨s.valueBits, if s.timestamp = 0 then now else s.timestamp⟩) ∧
    (FromTimeseriesToPrometheusTimeseries now ts).labels =
      ts.Labels.map (fun l => ⟨l.lname, l.lvalue⟩) := by
  unfold FromTimeseriesToPrometheusTimeseries
  constructor
  · rw [foldl_append_eq_map
      (fun s : Sample => (⟨s.valueBits, if s.timestamp = 0 then now else s.timestamp⟩ : PSample))]
    simp
  · rw [foldl_append_eq_map (fun l : Label => (⟨l.lname, l.lvalue⟩ : PLabel))]
    simp

/-- C9: the claim says the one-character lookahead after the first
occurrence of the series-id marker is always in bounds, so `compileTemplate`
is total.  The code is wrong: on a template that ends right after the
marker (here the eleven bytes spelling dollar, open brace, "series_id"),
the lookahead indexes one past the end of the string and the Go code
panics with an index-out-of-range runtime error instead of returning the
parse error its own documentation promises. -/
theorem compileTemplate_suffix_lookahead_panics :
    compileTemplate sidPat = GoResult.panicked := by decide

/-- C7 counterexample: the claim says `generateSeries` errors whenever the
batch index is out of range, but a batch index of 0 (below the valid range
1..batches) passes the only check in the code (`batch > batches`) and the
call succeeds, returning a full batch of 50 series (with negative series
ids) instead of an error. -/
theorem generateSeries_batch_zero_not_rejected :
    GoResult.isErrB (generateSeries (fun _ _ => []) (fun _ => 0) 0 100 2 50 0) = false ∧
    okLength (generateSeries (fun _ _ => []) (fun _ => 0) 0 100 2 50 0) = 50 := by
  constructor
  · rfl
  · rfl

/-- C8 counterexample: the claim says compilation rejects every modulus for
which evaluation would divide by zero, but the modulo template with divisor
0 (bytes of the marker, percent, "0", closing brace) compiles successfully
to a generator with an empty table, and evaluating that generator performs
the Go expression seriesID % 0, a division-by-zero runtime panic. -/
theorem modZero_compiles_but_eval_panics :
    compileTemplate (sidPat ++ [37, 48, 125]) = GoResult.ok (.mod [] 0) ∧
    appendByte (.mod [] 0) ⟨none⟩ [] 0 = GoResult.panicked := by
  constructor
  · decide
  · decide

/-- C4 counterexample: the claim classifies every error and says every
other template compiles successfully; the modulo template with the integer
divisor -2 (marker, percent, minus, "2", closing brace) falls in the
"compiles successfully" bucket of the claim, but the code calls
`make([][]byte, -2)` and panics at compile time. -/
theorem negative_modulus_template_panics :
    compileTemplate (sidPat ++ [37, 45, 50, 125]) = GoResult.panicked := by decide

/-- C2 counterexample: the claim promises, for every literal base-10
integer N, that the compiled division template evaluates to the spliced
decimal quotient; with N = 0 (marker, slash, "0", closing brace) the
template compiles to a generator, and evaluating it at series id 12
divides by zero and panics instead of producing any string. -/
theorem divZero_template_eval_panics :
    compileTemplate (sidPat ++ [47, 48, 125]) = GoResult.ok (.div [] [] 0) ∧
    appendByte (.div [] [] 0) ⟨none⟩ [] 12 = GoResult.panicked := by
  constructor
  · decide
  · decide

/-- C3 counterexample: the claim says an empty id range produces an empty
result; with minSeriesID = maxSeriesID = 5 the code still encodes the
series for id 5 unconditionally before entering the loop, so the produced
bytes are not empty. -/
theorem empty_range_still_emits_one_series :
    compileLabelTemplates [([110], [118])] =
      GoResult.ok { compiledTemplates := [{ name := [110], kind := .ident [118], st := ⟨none⟩ }],
                    labelValue := List.replicate 128 0 } ∧
    generateFromPrecompiledTemplates (fun _ => 1) 1 5 5
      { compiledTemplates := [{ name := [110], kind := .ident [118], st := ⟨none⟩ }],
        labelValue := List.replicate 128 0 } ≠ GoResult.ok [] := by
  constructor
  · decide
  · decide

/-- C7 (amended): with a positive batch count, `generateSeries` returns an
empty result and no error when totalSeries is 0; it returns an error (and
no output) when the batch index exceeds `batches` or when
`totalSeries/batches` (Go truncated division) differs from `batchSize`;
and otherwise — which includes batch indices ≤ 0, accepted by the code —
it returns exactly `batchSize` series. -/
theorem generateSeries_precondition_behaviour
    (cardLabels : Int → Int → List Label) (randVals : Nat → Nat) (timestamp : Int)
    (totalSeries batches batchSize batch : Int) (hb : 0 < batches) :
    (totalSeries = 0 →
      generateSeries cardLabels randVals timestamp totalSeries batches batchSize batch =
        GoResult.ok []) ∧
    (totalSeries ≠ 0 → (batches < batch ∨ totalSeries.tdiv batches ≠ batchSize) →
      ∃ e, generateSeries cardLabels randVals timestamp totalSeries batches batchSize batch =
        GoResult.err e) ∧
    (totalSeries ≠ 0 → batch ≤ batches → totalSeries.tdiv batches = batchSize →
      0 ≤ batchSize →
      ∃ out, generateSeries cardLabels randVals timestamp totalSeries batches batchSize batch =
        GoResult.ok out ∧ out.length = batchSize.toNat) := by
  have hb0 : batches ≠ 0 := by omega
  have hbm : ¬(totalSeries = -9223372036854775808 ∧ batches = -1) := by omega
  refine ⟨?_, ?_, ?_⟩
  · intro h0
    simp [generateSeries, h0]
  · intro h0 hOr
    by_cases hbb : batches < batch
    · exact ⟨"batch must be in the range of batches", by simp [generateSeries, h0, hbb]⟩
    · have hdv : totalSeries.tdiv batches ≠ batchSize := by tauto
      refine ⟨"total_series must divide evenly into batches of size batch_size", ?_⟩
      simp [generateSeries, h0, hbb, goDiv, hb0, hbm, hdv]
  · intro h0 hble hdiv hbs
    have hbb : ¬ batches < batch := by omega
    have hneg : ¬ batchSize < 0 := by omega
    unfold generateSeries
    rw [if_neg h0, if_neg hbb]
    have hgd : goDiv totalSeries batches = some batchSize := by
      simp [goDiv, hb0, hbm, hdiv]
    rw [hgd]
    rw [show (match some batchSize with
        | none => GoResult.panicked
        | some q =>
          if q ≠ batchSize then
            GoResult.err "total_series must divide evenly into batches of size batch_size"
          else if batchSize < 0 then GoResult.panicked
          else
            GoResult.ok ((List.range batchSize.toNat).map fun (i : Nat) =>
              let seriesID : Int := batchSize * (batch - 1) + (i : Int)
              { Labels := cardLabels totalSeries seriesID ++
                  [⟨nameLabelBytes, k6MetricNameBytes ++ goIntBytes seriesID⟩,
                   ⟨seriesIdLabelBytes, goIntBytes seriesID⟩],
                Samples := [⟨randVals i, timestamp⟩] })) =
        (if batchSize ≠ batchSize then
            GoResult.err "total_series must divide evenly into batches of size batch_size"
          else if batchSize < 0 then GoResult.panicked
          else
            GoResult.ok ((List.range batchSize.toNat).map fun (i : Nat) =>
              let seriesID : Int := batchSize * (batch - 1) + (i : Int)
              { Labels := cardLabels totalSeries seriesID ++
                  [⟨nameLabelBytes, k6MetricNameBytes ++ goIntBytes seriesID⟩,
                   ⟨seriesIdLabelBytes, goIntBytes seriesID⟩],
                Samples := [⟨randVals i, timestamp⟩] }) : GoResult (List Timeseries))
      from rfl]
    rw [if_neg (by simp), if_neg hneg]
    refine ⟨_, rfl, ?_⟩
    simp

/-- Witness for the amended C7 at totalSeries 100, batches 4, batchSize 25,
batch 2. -/
theorem generateSeries_precondition_behaviour_witness :
    (0 : Int) < 4 ∧
    ∃ out, generateSeries (fun _ _ => []) (fun _ => 0) 3 100 4 25 2 =
      GoResult.ok out ∧ out.length = (25 : Int).toNat :=
  ⟨by decide,
   (generateSeries_precondition_behaviour (fun _ _ => []) (fun _ => 0) 3 100 4 25 2
      (by decide)).2.2 (by decide) (by decide) (by decide) (by decide)⟩

theorem compileList_names : ∀ (m : List (List Nat × List Nat)) (cts : List CompiledTemplate),
    compileList m = .ok cts → cts.map (fun ct => ct.name) = m.map Prod.fst := by
  intro m
  induction m with
  | nil =>
    intro cts h
    simp only [compileList] at h
    cases h
    simp
  | cons kv t ih =>
    intro cts h
    obtain ⟨k, v⟩ := kv
    simp only [compileList] at h
    cases hc : compileTemplate v <;> rw [hc] at h
    · cases hr : compileList t <;> rw [hr] at h <;> cases h
      simp [ih _ hr]
    · cases h
    · cases h

/-- C5: for every label template map (distinct keys) that compiles, the
compiled template sequence is strictly ascending by label name under
byte-wise comparison, whatever the iteration order of the map was. -/
theorem compileLabelTemplates_sorted (m : List (List Nat × List Nat)) (ts : TemplateSet)
    (hnd : (m.map Prod.fst).Nodup) (h : compileLabelTemplates m = .ok ts) :
    (ts.compiledTemplates.map fun ct => ct.name).Pairwise (· < ·) := by
  unfold compileLabelTemplates at h
  cases hC : compileList m <;> rw [hC] at h <;> cases h
  case ok cts =>
    have hperm := List.perm_insertionSort (fun a b : CompiledTemplate => a.name ≤ b.name) cts
    have hsorted := List.sorted_insertionSort (fun a b : CompiledTemplate => a.name ≤ b.name) cts
    have hndcts : (cts.map fun ct => ct.name).Nodup := by
      rw [compileList_names m cts hC]; exact hnd
    have hndsort : ((List.insertionSort (fun a b : CompiledTemplate => a.name ≤ b.name) cts).map
        fun ct => ct.name).Nodup :=
      (hperm.map fun ct => ct.name).nodup_iff.mpr hndcts
    have hne : (List.insertionSort (fun a b : CompiledTemplate => a.name ≤ b.name) cts).Pairwise
        fun a b => a.name ≠ b.name := by
      rw [List.Nodup, List.pairwise_map] at hndsort
      exact hndsort
    have hcomb := hsorted.and hne
    show (((List.insertionSort (fun a b : CompiledTemplate => a.name ≤ b.name) cts).map
      fun ct => ct.name)).Pairwise (· < ·)
    rw [List.pairwise_map]
    exact hcomb.imp fun hab => lt_of_le_of_ne hab.1 hab.2

/-- Witness for C5 on the two-entry map b, a with identity templates. -/
theorem compileLabelTemplates_sorted_witness :
    ([[98], [97]] : List (List Nat)).Nodup ∧
    compileLabelTemplates [([98], [120]), ([97], [121])] =
      GoResult.ok { compiledTemplates := [{ name := [97], kind := .ident [121], st := ⟨none⟩ },
                                          { name := [98], kind := .ident [120], st := ⟨none⟩ }],
                    labelValue := List.replicate 128 0 } ∧
    ((({ compiledTemplates := [{ name := [97], kind := .ident [121], st := ⟨none⟩ },
                               { name := [98], kind := .ident [120], st := ⟨none⟩ }],
         labelValue := List.replicate 128 0 } : TemplateSet)).compiledTemplates.map
       fun ct => ct.name).Pairwise (· < ·) :=
  ⟨by decide, by decide,
   compileLabelTemplates_sorted [([98], [120]), ([97], [121])] _ (by decide) (by decide)⟩

theorem goodB_fresh (k : GenKind) : goodB k ⟨none⟩ = true := by
  cases k <;> rfl

/-- With a good memo state, `AppendByte` panics exactly when the pure
denotation does, otherwise appends exactly the denoted bytes and keeps the
state good. -/
theorem appendByte_spec (kind : GenKind) (st : GenState) (b : List Nat) (sid : Int)
    (hg : goodB kind st = true) :
    (evalPure kind sid = none → appendByte kind st b sid = .panicked) ∧
    (∀ v, evalPure kind sid = some v →
      ∃ st2, appendByte kind st b sid = .ok (st2, b ++ v) ∧ goodB kind st2 = true) := by
  cases kind with
  | ident t0 =>
    refine ⟨fun h => by simp [evalPure] at h, fun v hv => ?_⟩
    simp only [evalPure, Option.some.injEq] at hv
    subst hv
    exact ⟨st, rfl, hg⟩
  | sid pre suf =>
    refine ⟨fun h => by simp [evalPure] at h, fun v hv => ?_⟩
    simp only [evalPure, Option.some.injEq] at hv
    subst hv
    refine ⟨st, ?_, hg⟩
    simp [appendByte]
  | mod table d =>
    constructor
    · intro h
      simp only [evalPure] at h
      simp only [appendByte]
      cases hm : goMod sid d with
      | none => rfl
      | some idx =>
        rw [hm] at h
        simp only at h
        by_cases hneg : idx < 0
        · simp [hneg]
        · rw [if_neg hneg] at h
          have hout : ¬ idx.toNat < table.length := by
            intro hlt
            rw [List.get?_eq_get hlt] at h
            cases h
          simp [hneg, hout]
    · intro v hv
      simp only [evalPure] at hv
      simp only [appendByte]
      cases hm : goMod sid d with
      | none => rw [hm] at hv; cases hv
      | some idx =>
        rw [hm] at hv
        simp only at hv
        by_cases hneg : idx < 0
        · rw [if_pos hneg] at hv; cases hv
        · rw [if_neg hneg] at hv
          obtain ⟨hlt, hget⟩ := List.get?_eq_some.mp hv
          refine ⟨st, ?_, hg⟩
          simp only [if_neg hneg, dif_pos hlt, hget]
  | div pre suf d =>
    constructor
    · intro h
      simp only [evalPure] at h
      simp only [appendByte]
      cases hd : goDiv sid d with
      | none => rfl
      | some value => rw [hd] at h; cases h
    · intro v hv
      simp only [evalPure] at hv
      simp only [appendByte]
      cases hd : goDiv sid d with
      | none => rw [hd] at hv; cases hv
      | some value =>
        rw [hd] at hv
        simp only [Option.map_some', Option.some.injEq] at hv
        subst hv
        cases hmem : st.memo with
        | none =>
          refine ⟨⟨some (value, pre ++ goIntBytes value ++ suf)⟩, ?_, ?_⟩
          · simp
          · simp [goodB]
        | some p =>
          obtain ⟨mv, mb⟩ := p
          have hmb : mb = pre ++ goIntBytes mv ++ suf := by
            have hgg := hg
            unfold goodB at hgg
            rw [hmem] at hgg
            exact eq_of_beq hgg
          by_cases hveq : value = mv
          · refine ⟨st, ?_, hg⟩
            simp [hveq, hmb]
          · refine ⟨⟨some (value, pre ++ goIntBytes value ++ suf)⟩, ?_, ?_⟩
            · simp [hveq]
            · simp [goodB]

theorem seg_pieces (A v B C : List Nat) :
    (((A ++ v) ++ B) ++ C).take A.length = A ∧
    seg (((A ++ v) ++ B) ++ C) A.length (A ++ v).length = v ∧
    seg (((A ++ v) ++ B) ++ C) (A ++ v).length ((A ++ v) ++ B).length = B ∧
    (((A ++ v) ++ B) ++ C).drop ((A ++ v) ++ B).length = C := by
  refine ⟨?_, ?_, ?_, ?_⟩
  · rw [List.append_assoc, List.append_assoc]
    exact List.take_left A _
  · unfold seg
    rw [List.append_assoc ((A ++ v)) B C, List.take_left (A ++ v) _]
    exact List.drop_left A v
  · unfold seg
    rw [List.take_left ((A ++ v) ++ B) C]
    exact List.drop_left (A ++ v) B
  · exact List.drop_left _ C

theorem labelMsg_length (nm v : List Nat) :
    (labelMsg nm v).length =
      (varint nm.length).length + v.length + (varint v.length).length + 1 + 1 + nm.length := by
  simp [labelMsg]
  omega

/-- With a good state, one label iteration panics exactly when the
generator's denotation does, and otherwise writes the label wire bytes
determined by the (name, evaluated value) pair alone, preserving name,
generator, and state goodness. -/
theorem labelStep_spec (sid : Int) (ct : CompiledTemplate) (hg : goodB ct.kind ct.st = true) :
    (evalPure ct.kind sid = none → labelStep sid ct = .panicked) ∧
    (∀ v, evalPure ct.kind sid = some v →
      ∃ ct2 lv4, labelStep sid ct = .ok (ct2, lv4, labelBytes ct.name v) ∧
        ct2.name = ct.name ∧ ct2.kind = ct.kind ∧ goodB ct2.kind ct2.st = true) := by
  obtain ⟨hnone, hsome⟩ := appendByte_spec ct.kind ct.st (varint ct.name.length) sid hg
  constructor
  · intro h
    simp only [labelStep, hnone h]
  · intro v hv
    obtain ⟨st2, hab, hg2⟩ := hsome v hv
    have hstep : ∃ lv4, labelStep sid ct =
        .ok (⟨ct.name, ct.kind, st2⟩, lv4, labelBytes ct.name v) := by
      refine ⟨((varint ct.name.length ++ v) ++ varint v.length) ++
        varint ((labelMsg ct.name v).length), ?_⟩
      simp only [labelStep, hab]
      have hsub : (varint ct.name.length ++ v).length - (varint ct.name.length).length
          = v.length := by simp
      rw [hsub]
      obtain ⟨h1, h2, h3, h4⟩ :=
        seg_pieces (varint ct.name.length) v (varint v.length)
          (varint (((varint ct.name.length ++ v) ++ varint v.length).length + 1 + 1 +
            ct.name.length))
      rw [h1, h2, h3, h4]
      have harg : ((varint ct.name.length ++ v) ++ varint v.length).length + 1 + 1 +
          ct.name.length = (labelMsg ct.name v).length := by
        rw [labelMsg_length]
        simp
        omega
      rw [harg]
      rfl
    obtain ⟨lv4, hstep⟩ := hstep
    exact ⟨_, lv4, hstep, rfl, rfl, hg2⟩

theorem takePad_length (n : Nat) (l : List Nat) : (takePad n l).length = n := by
  simp [takePad]
  omega

theorem sample_block (l : List Nat) (h : l.length = 10) (bits : Nat) :
    ((l.set 0 9).take 1 ++ le64 bits ++ (l.set 0 9).drop 9).set 9 16 =
      9 :: (le64 bits ++ [16]) := by
  rcases l with _ | ⟨a0, l⟩
  · simp at h
  rcases l with _ | ⟨a1, l⟩
  · simp at h
  rcases l with _ | ⟨a2, l⟩
  · simp at h
  rcases l with _ | ⟨a3, l⟩
  · simp at h
  rcases l with _ | ⟨a4, l⟩
  · simp at h
  rcases l with _ | ⟨a5, l⟩
  · simp at h
  rcases l with _ | ⟨a6, l⟩
  · simp at h
  rcases l with _ | ⟨a7, l⟩
  · simp at h
  rcases l with _ | ⟨a8, l⟩
  · simp at h
  rcases l with _ | ⟨a9, l⟩
  · simp at h
  rcases l with _ | ⟨a10, l⟩
  · rfl
  · simp at h

/-- Whatever the stale buffer content, the ten overwritten bytes plus the
appended timestamp varint are exactly the sample message. -/
theorem sampleLvT_eq (σ lv : List Nat) (bits : Nat) (t : Int) :
    sampleLvT σ lv bits t = sampleMsg bits t := by
  simp only [sampleLvT]
  rw [sample_block (takePad 10 (lv ++ σ.drop lv.length)) (takePad_length 10 _) bits]
  unfold sampleMsg
  simp

/-- With good states, the label loop panics exactly when some generator's
denotation does, and otherwise emits exactly the label frames of the
(name, evaluated value) pairs, preserving the immutable data and state
goodness. -/
theorem labelLoop_spec (sid : Int) :
    ∀ (cts : List CompiledTemplate) (lv : List Nat),
      (∀ ct ∈ cts, goodB ct.kind ct.st = true) →
      (labelsOpt sid (cts.map fun ct => (ct.name, ct.kind)) = none →
        labelLoop sid cts lv = .panicked) ∧
      (∀ out, labelsOpt sid (cts.map fun ct => (ct.name, ct.kind)) = some out →
        ∃ cts2 lvF, labelLoop sid cts lv = .ok (cts2, lvF, out) ∧
          (cts2.map fun ct => (ct.name, ct.kind)) = (cts.map fun ct => (ct.name, ct.kind)) ∧
          ∀ ct ∈ cts2, goodB ct.kind ct.st = true) := by
  intro cts
  induction cts with
  | nil =>
    intro lv _
    constructor
    · intro h
      simp [labelsOpt] at h
    · intro out hout
      simp only [List.map_nil, labelsOpt, Option.some.injEq] at hout
      subst hout
      exact ⟨[], lv, rfl, rfl, by simp⟩
  | cons ct rest ih =>
    intro lv hg
    have hgct : goodB ct.kind ct.st = true := hg ct (by simp)
    have hgrest : ∀ c ∈ rest, goodB c.kind c.st = true := fun c hc => hg c (by simp [hc])
    obtain ⟨hnone, hsome⟩ := labelStep_spec sid ct hgct
    constructor
    · intro h
      simp only [List.map_cons, labelsOpt] at h
      cases hev : evalPure ct.kind sid with
      | none =>
        simp only [labelLoop, hnone hev]
      | some v =>
        rw [hev] at h
        cases hrest : labelsOpt sid (rest.map fun c => (c.name, c.kind)) with
        | some r =>
          rw [hrest] at h
          simp at h
        | none =>
          obtain ⟨ct2, lv4, hstep, _, _, hg2⟩ := hsome v hev
          obtain ⟨ihnone, _⟩ := ih lv4 hgrest
          simp only [labelLoop, hstep, ihnone hrest]
    · intro out hout
      simp only [List.map_cons, labelsOpt] at hout
      cases hev : evalPure ct.kind sid with
      | none =>
        rw [hev] at hout
        simp at hout
      | some v =>
        rw [hev] at hout
        cases hrest : labelsOpt sid (rest.map fun c => (c.name, c.kind)) with
        | none =>
          rw [hrest] at hout
          simp at hout
        | some r =>
          rw [hrest] at hout
          simp only [Option.some.injEq] at hout
          obtain ⟨ct2, lv4, hstep, hnm, hk, hg2⟩ := hsome v hev
          obtain ⟨_, ihsome⟩ := ih lv4 hgrest
          obtain ⟨cts2, lvF, hloop, hstat, hgood2⟩ := ihsome r hrest
          refine ⟨ct2 :: cts2, lvF, ?_, ?_, ?_⟩
          · simp only [labelLoop, hstep, hloop]
            rw [← hout]
          · simp [hstat, hnm, hk]
          · intro c hc
            rcases List.mem_cons.mp hc with rfl | hc
            · exact hg2
            · exact hgood2 c hc

/-- With good states, `writeFor` panics exactly when the statics-only
encoder does, and otherwise writes exactly the statics-determined bytes,
preserving the immutable data and state goodness. -/
theorem writeFor_spec (ts : TemplateSet) (bits : Nat) (sid t : Int) (hg : tsGood ts) :
    (writeForOpt (statics ts) bits sid t = none → writeFor ts bits sid t = .panicked) ∧
    (∀ out, writeForOpt (statics ts) bits sid t = some out →
      ∃ ts2, writeFor ts bits sid t = .ok (ts2, out) ∧ statics ts2 = statics ts ∧
        tsGood ts2) := by
  obtain ⟨lnone, lsome⟩ := labelLoop_spec sid ts.compiledTemplates ts.labelValue hg
  constructor
  · intro h
    have hl : labelsOpt sid (statics ts) = none := by
      cases hx : labelsOpt sid (statics ts) with
      | none => rfl
      | some lo =>
        unfold writeForOpt at h
        rw [hx] at h
        simp at h
    unfold statics at hl
    simp only [writeFor, lnone hl]
  · intro out hout
    unfold writeForOpt at hout
    obtain ⟨lo, hlo, hmap⟩ := Option.map_eq_some'.mp hout
    have hlo' : labelsOpt sid (ts.compiledTemplates.map fun ct => (ct.name, ct.kind)) =
        some lo := by
      unfold statics at hlo
      exact hlo
    obtain ⟨cts2, lvF, hloop, hstat, hgood2⟩ := lsome lo hlo'
    refine ⟨{ compiledTemplates := cts2,
              labelValue := (sampleMsg bits t ++ [18]) ++ varint (sampleMsg bits t).length },
            ?_, ?_, ?_⟩
    · simp only [writeFor, hloop, sampleLvT_eq]
      rw [List.append_assoc (sampleMsg bits t) [18] (varint (sampleMsg bits t).length)]
      rw [List.drop_left (sampleMsg bits t) ([18] ++ varint (sampleMsg bits t).length)]
      rw [List.take_left (sampleMsg bits t) ([18] ++ varint (sampleMsg bits t).length)]
      rw [← hmap]
      rfl
    · unfold statics
      exact hstat
    · intro c hc
      exact hgood2 c hc

theorem writeFor_bytes (ts : TemplateSet) (bits : Nat) (sid t : Int) (hg : tsGood ts) :
    resBytes (writeFor ts bits sid t) = ofOpt (writeForOpt (statics ts) bits sid t) := by
  obtain ⟨wnone, wsome⟩ := writeFor_spec ts bits sid t hg
  cases hx : writeForOpt (statics ts) bits sid t with
  | none => rw [wnone hx]; rfl
  | some out =>
    obtain ⟨ts2, hw, _, _⟩ := wsome out hx
    rw [hw]
    rfl

theorem reach_inv (ts0 ts : TemplateSet) (h : Reach ts0 ts) (hg : tsGood ts0) :
    tsGood ts ∧ statics ts = statics ts0 := by
  induction h with
  | refl => exact ⟨hg, rfl⟩
  | step hr hw ih =>
    obtain ⟨hgood, hstat⟩ := ih
    obtain ⟨wnone, wsome⟩ := writeFor_spec _ _ _ _ hgood
    cases hx : writeForOpt (statics _) _ _ _ with
    | none =>
      rw [wnone hx] at hw
      cases hw
    | some o =>
      obtain ⟨ts2x, hw2, hstat2, hgood2⟩ := wsome o hx
      rw [hw2] at hw
      injection hw with hw
      injection hw with hwa hwb
      subst hwa
      exact ⟨hgood2, by rw [hstat2, hstat]⟩

theorem compileList_fresh : ∀ (m : List (List Nat × List Nat)) (cts : List CompiledTemplate),
    compileList m = .ok cts → ∀ ct ∈ cts, ct.st = ⟨none⟩ := by
  intro m
  induction m with
  | nil =>
    intro cts h
    simp only [compileList] at h
    cases h
    simp
  | cons kv t ih =>
    intro cts h
    obtain ⟨k, v⟩ := kv
    simp only [compileList] at h
    cases hc : compileTemplate v <;> rw [hc] at h
    · cases hr : compileList t <;> rw [hr] at h <;> cases h
      intro ct hct
      rcases List.mem_cons.mp hct with rfl | hct
      · rfl
      · exact ih _ hr ct hct
    · cases h
    · cases h

theorem compileLabelTemplates_good (m : List (List Nat × List Nat)) (ts : TemplateSet)
    (h : compileLabelTemplates m = .ok ts) : tsGood ts := by
  unfold compileLabelTemplates at h
  cases hC : compileList m <;> rw [hC] at h <;> cases h
  case ok cts =>
    intro ct hct
    have hmem : ct ∈ cts :=
      (List.perm_insertionSort (fun a b : CompiledTemplate => a.name ≤ b.name) cts).mem_iff.mp hct
    rw [compileList_fresh m cts hC ct hmem]
    exact goodB_fresh ct.kind

/-- C10: `writeFor` is deterministic in its arguments.  For any two
template-set states reached from the same freshly compiled set by previous
`writeFor` calls — hence with possibly different division memo states —
and with both scratch buffers overridden by arbitrary content, a call with
the same value bits, series id and timestamp produces identical output
bytes (or panics identically). -/
theorem writeFor_deterministic (m : List (List Nat × List Nat)) (ts0 ts1 ts2 : TemplateSet)
    (hc : compileLabelTemplates m = .ok ts0) (h1 : Reach ts0 ts1) (h2 : Reach ts0 ts2)
    (σ1 σ2 : List Nat) (bits : Nat) (sid t : Int) :
    resBytes (writeFor { ts1 with labelValue := σ1 } bits sid t) =
      resBytes (writeFor { ts2 with labelValue := σ2 } bits sid t) := by
  have hg0 := compileLabelTemplates_good m ts0 hc
  obtain ⟨hg1, hs1⟩ := reach_inv ts0 ts1 h1 hg0
  obtain ⟨hg2, hs2⟩ := reach_inv ts0 ts2 h2 hg0
  have hga : tsGood { ts1 with labelValue := σ1 } := hg1
  have hgb : tsGood { ts2 with labelValue := σ2 } := hg2
  rw [writeFor_bytes _ _ _ _ hga, writeFor_bytes _ _ _ _ hgb]
  have hsa : statics { ts1 with labelValue := σ1 } = statics ts0 := hs1
  have hsb : statics { ts2 with labelValue := σ2 } = statics ts0 := hs2
  rw [hsa, hsb]

set_option maxRecDepth 10000 in
/-- Witness for C10: a division template; one side freshly compiled with
zeroed buffer overridden, the other side after one `writeFor` call (memo
populated) with its buffer overridden differently. -/
theorem writeFor_deterministic_witness :
    resBytes (writeFor { compiledTemplates := [⟨[110], .div [] [] 2, ⟨none⟩⟩],
                         labelValue := [3, 1, 4, 1, 5] } 1 5 7) =
      resBytes (writeFor { compiledTemplates := [⟨[110], .div [] [] 2, ⟨some (2, [50])⟩⟩],
                           labelValue := [] } 1 5 7) :=
  writeFor_deterministic [([110], sidPat ++ [47, 50, 125])]
    { compiledTemplates := [⟨[110], .div [] [] 2, ⟨none⟩⟩],
      labelValue := List.replicate 128 0 }
    { compiledTemplates := [⟨[110], .div [] [] 2, ⟨none⟩⟩],
      labelValue := List.replicate 128 0 }
    { compiledTemplates := [⟨[110], .div [] [] 2, ⟨some (2, [50])⟩⟩],
      labelValue := [9, 1, 0, 0, 0, 0, 0, 0, 0, 16, 7, 18, 11] }
    (by decide) (Reach.refl _)
    (@Reach.step
      { compiledTemplates := [⟨[110], .div [] [] 2, ⟨none⟩⟩],
        labelValue := List.replicate 128 0 }
      { compiledTemplates := [⟨[110], .div [] [] 2, ⟨none⟩⟩],
        labelValue := List.replicate 128 0 }
      { compiledTemplates := [⟨[110], .div [] [] 2, ⟨some (2, [50])⟩⟩],
        labelValue := [9, 1, 0, 0, 0, 0, 0, 0, 0, 16, 7, 18, 11] }
      [10, 6, 10, 1, 110, 18, 1, 50, 18, 11, 9, 1, 0, 0, 0, 0, 0, 0, 0, 16, 7]
      1 5 7 (Reach.refl _) (by decide))
    [3, 1, 4, 1, 5] [] 1 5 7

theorem labelsOpt_some : ∀ (S : List (List Nat × GenKind)) (sid : Int),
    (∀ nk ∈ S, ∃ v, evalPure nk.2 sid = some v) →
    labelsOpt sid S =
      some ((S.map fun nk => labelBytes nk.1 ((evalPure nk.2 sid).getD [])).flatten) := by
  intro S
  induction S with
  | nil => intro sid _; rfl
  | cons nk rest ih =>
    intro sid h
    obtain ⟨n, k⟩ := nk
    obtain ⟨v, hv⟩ := h (n, k) (by simp)
    have hrest := ih sid fun x hx => h x (by simp [hx])
    simp only [labelsOpt, hv, hrest, List.map_cons, List.flatten_cons]
    simp [hv]

theorem writeForOpt_some (S : List (List Nat × GenKind)) (bits : Nat) (sid t : Int)
    (h : ∀ nk ∈ S, ∃ v, evalPure nk.2 sid = some v) :
    writeForOpt S bits sid t = some (writeForPure S bits sid t) := by
  unfold writeForOpt writeForPure
  rw [labelsOpt_some S sid h]
  rfl

theorem genLoop_ok (vals : Nat → Nat) (t : Int) :
    ∀ (sids : List Int) (i : Nat) (ts : TemplateSet), tsGood ts →
      (∀ sid ∈ sids, ∀ nk ∈ statics ts, ∃ v, evalPure nk.2 sid = some v) →
      ∃ tsF, genLoop vals t sids i ts =
          .ok (tsF, (framedPure (statics ts) vals t sids i).flatten) ∧
        statics tsF = statics ts ∧ tsGood tsF := by
  intro sids
  induction sids with
  | nil =>
    intro i ts hg _
    exact ⟨ts, rfl, rfl, hg⟩
  | cons sid rest ih =>
    intro i ts hg hev
    have hevsid : ∀ nk ∈ statics ts, ∃ v, evalPure nk.2 sid = some v :=
      fun nk h => hev sid (by simp) nk h
    have hsome := writeForOpt_some (statics ts) (vals i) sid t hevsid
    obtain ⟨_, wsome⟩ := writeFor_spec ts (vals i) sid t hg
    obtain ⟨ts2, hw, hstat, hg2⟩ := wsome _ hsome
    have hev2 : ∀ s ∈ rest, ∀ nk ∈ statics ts2, ∃ v, evalPure nk.2 s = some v := by
      intro s hs nk hnk
      rw [hstat] at hnk
      exact hev s (by simp [hs]) nk hnk
    obtain ⟨tsF, hloop, hstatF, hgF⟩ := ih (i + 1) ts2 hg2 hev2
    refine ⟨tsF, ?_, by rw [hstatF, hstat], hgF⟩
    simp only [genLoop, hw, hloop, hstat]
    simp [framedPure]

theorem intRangeGo_mem : ∀ (n : Nat) (a x : Int),
    x ∈ intRangeGo a n ↔ a ≤ x ∧ x < a + n := by
  intro n
  induction n with
  | zero => intro a x; simp [intRangeGo]
  | succ n ih =>
    intro a x
    simp only [intRangeGo, List.mem_cons, ih (a + 1) x]
    omega

theorem intRangeList_mem (a b x : Int) :
    x ∈ intRangeList a b ↔ a ≤ x ∧ x < b := by
  unfold intRangeList
  rw [intRangeGo_mem]
  omega

theorem intRangeList_cons (a b : Int) (h : a < b) :
    intRangeList a b = a :: intRangeList (a + 1) b := by
  unfold intRangeList
  rw [show (b - a).toNat = (b - (a + 1)).toNat + 1 by omega]
  rfl

theorem intRangeGo_length : ∀ (n : Nat) (a : Int), (intRangeGo a n).length = n := by
  intro n
  induction n with
  | zero => intro a; rfl
  | succ n ih => intro a; simp [intRangeGo, ih]

theorem intRangeList_length (a b : Int) : (intRangeList a b).length = (b - a).toNat :=
  intRangeGo_length _ a

theorem framedPure_length (S : List (List Nat × GenKind)) (vals : Nat → Nat) (t : Int) :
    ∀ (sids : List Int) (i : Nat), (framedPure S vals t sids i).length = sids.length := by
  intro sids
  induction sids with
  | nil => intro i; rfl
  | cons sid rest ih => intro i; simp [framedPure, ih]

/-- C3 (amended): the template generation path encodes the series for
`minSeriesID` unconditionally and then one series per id in
`(minSeriesID, maxSeriesID)`, ascending.  When `maxSeriesID > minSeriesID`
this is exactly one encoded series per id in the half-open interval, so the
batch size is `maxSeriesID - minSeriesID`; but when the interval is empty
the result still contains the single series for `minSeriesID` (with no
error) rather than being empty. -/
theorem generate_range_semantics (vals : Nat → Nat) (t mn mx : Int) (ts : TemplateSet)
    (hg : tsGood ts)
    (he : ∀ sid : Int, (sid = mn ∨ (mn ≤ sid ∧ sid < mx)) →
      ∀ nk ∈ statics ts, ∃ v, evalPure nk.2 sid = some v) :
    generateFromPrecompiledTemplates vals t mn mx ts =
      .ok ((framedPure (statics ts) vals t (mn :: intRangeList (mn + 1) mx) 0).flatten) ∧
    (mn < mx → mn :: intRangeList (mn + 1) mx = intRangeList mn mx) ∧
    (framedPure (statics ts) vals t (mn :: intRangeList (mn + 1) mx) 0).length =
      1 + (mx - (mn + 1)).toNat ∧
    (mn < mx → 1 + (mx - (mn + 1)).toNat = (mx - mn).toNat) ∧
    (mx ≤ mn → generateFromPrecompiledTemplates vals t mn mx ts ≠ .ok []) := by
  have hmem : ∀ sid ∈ mn :: intRangeList (mn + 1) mx, ∀ nk ∈ statics ts,
      ∃ v, evalPure nk.2 sid = some v := by
    intro sid hsid nk hnk
    rcases List.mem_cons.mp hsid with rfl | hsid
    · exact he sid (Or.inl rfl) nk hnk
    · rw [intRangeList_mem] at hsid
      exact he sid (Or.inr ⟨by omega, by omega⟩) nk hnk
  obtain ⟨tsF, hloop, _, _⟩ := genLoop_ok vals t (mn :: intRangeList (mn + 1) mx) 0 ts hg hmem
  have hmain : generateFromPrecompiledTemplates vals t mn mx ts =
      .ok ((framedPure (statics ts) vals t (mn :: intRangeList (mn + 1) mx) 0).flatten) := by
    unfold generateFromPrecompiledTemplates
    rw [hloop]
  refine ⟨hmain, fun h => (intRangeList_cons mn mx h).symm, ?_, fun h => by omega, ?_⟩
  · simp [framedPure_length, intRangeList_length]
    omega
  · intro hle heq
    rw [hmain] at heq
    have hnil : intRangeList (mn + 1) mx = [] := by
      unfold intRangeList
      rw [show (mx - (mn + 1)).toNat = 0 by omega]
      rfl
    rw [hnil] at heq
    simp [framedPure] at heq

/-- Witness for the amended C3 on a one-label identity template set over
the range 0 ..< 2. -/
theorem generate_range_semantics_witness :
    generateFromPrecompiledTemplates (fun _ => 1) 1 0 2
        { compiledTemplates := [⟨[110], .ident [118], ⟨none⟩⟩],
          labelValue := List.replicate 128 0 } =
      .ok ((framedPure
        (statics { compiledTemplates := [⟨[110], .ident [118], ⟨none⟩⟩],
                   labelValue := List.replicate 128 0 })
        (fun _ => 1) 1 ((0 : Int) :: intRangeList (0 + 1) 2) 0).flatten) ∧
    ((0 : Int) < 2 → (0 : Int) :: intRangeList (0 + 1) 2 = intRangeList 0 2) :=
  ⟨(generate_range_semantics (fun _ => 1) 1 0 2
      { compiledTemplates := [⟨[110], .ident [118], ⟨none⟩⟩],
        labelValue := List.replicate 128 0 }
      (by intro ct hct; simp at hct; subst hct; rfl)
      (fun sid _ nk hnk => by
        simp only [statics, List.map_cons, List.map_nil, List.mem_singleton] at hnk
        subst hnk
        exact ⟨[118], rfl⟩)).1,
   (generate_range_semantics (fun _ => 1) 1 0 2
      { compiledTemplates := [⟨[110], .ident [118], ⟨none⟩⟩],
        labelValue := List.replicate 128 0 }
      (by intro ct hct; simp at hct; subst hct; rfl)
      (fun sid _ nk hnk => by
        simp only [statics, List.map_cons, List.map_nil, List.mem_singleton] at hnk
        subst hnk
        exact ⟨[118], rfl⟩)).2.1⟩

theorem marshalLabel_nonempty (n v : List Nat) (hn : n ≠ []) (hv : v ≠ []) :
    marshalLabel ⟨n, v⟩ = labelMsg n v := by
  unfold marshalLabel labelMsg
  rw [if_neg (by simpa using hn), if_neg (by simpa using hv)]
  simp

theorem marshalSample_nonzero (bits : Nat) (t : Int) (hv : floatIsZero bits = false)
    (ht : t ≠ 0) :
    marshalSample ⟨bits, t⟩ = sampleMsg bits t := by
  unfold marshalSample sampleMsg
  rw [if_neg (by simp [hv]), if_neg ht]
  simp

/-- Once every label name and evaluated value is nonempty, the value bits
are not those of float zero, and the timestamp is nonzero, the per-series
stream bytes coincide with the reference marshalling of the corresponding
`prompb.TimeSeries`. -/
theorem writeForPure_eq_marshal (S : List (List Nat × GenKind)) (bits : Nat) (sid t : Int)
    (ht : t ≠ 0) (hv : floatIsZero bits = false)
    (hS : ∀ nk ∈ S, nk.1 ≠ [] ∧ (evalPure nk.2 sid).getD [] ≠ []) :
    writeForPure S bits sid t =
      marshalTimeSeries ⟨S.map fun nk => ⟨nk.1, (evalPure nk.2 sid).getD []⟩, [⟨bits, t⟩]⟩ := by
  unfold writeForPure marshalTimeSeries
  simp only [List.map_map, List.map_cons, List.map_nil, List.flatten_cons, List.flatten_nil,
    List.append_nil]
  have hlab : ∀ nk ∈ S,
      (fun nk => labelBytes nk.1 ((evalPure nk.2 sid).getD [])) nk =
      ((fun l => 10 :: (varint (marshalLabel l).length ++ marshalLabel l)) ∘
        fun nk => (⟨nk.1, (evalPure nk.2 sid).getD []⟩ : PLabel)) nk := by
    intro nk hnk
    obtain ⟨hn, hvv⟩ := hS nk hnk
    simp only [Function.comp]
    rw [marshalLabel_nonempty _ _ hn hvv]
    rfl
  rw [List.map_congr_left hlab]
  rw [marshalSample_nonzero bits t hv ht]
  rfl

/-- Frame-by-frame, the generation loop's output is the reference
marshalling of the reference series list. -/
theorem framedPure_marshal (S : List (List Nat × GenKind)) (vals : Nat → Nat) (t : Int)
    (ht : t ≠ 0) (hvals : ∀ i, floatIsZero (vals i) = false) :
    ∀ (sids : List Int) (i : Nat),
      (∀ sid ∈ sids, ∀ nk ∈ S, nk.1 ≠ [] ∧ (evalPure nk.2 sid).getD [] ≠ []) →
      (framedPure S vals t sids i).flatten =
        marshalWriteRequest (refSeries S vals t sids i) := by
  intro sids
  induction sids with
  | nil => intro i _; rfl
  | cons sid rest ih =>
    intro i h
    have hsid := fun nk hnk => h sid (by simp) nk hnk
    have hrest := ih (i + 1) fun s hs nk hnk => h s (by simp [hs]) nk hnk
    simp only [framedPure, refSeries, marshalWriteRequest, List.map_cons, List.flatten_cons]
    rw [← writeForPure_eq_marshal S (vals i) sid t ht (hvals i) hsid]
    rw [show marshalWriteRequest (refSeries S vals t rest (i + 1)) =
      ((refSeries S vals t rest (i + 1)).map fun ts =>
        10 :: (varint (marshalTimeSeries ts).length ++ marshalTimeSeries ts)).flatten
      from rfl] at hrest
    rw [hrest]

/-- C1 (amended): for every compiled label template map, timestamp,
value-bit stream and nonempty ascending id range, the bytes assembled by
`generateFromPrecompiledTemplates` via `writeFor` are byte-for-byte the
reference protobuf marshalling of the `prompb.WriteRequest` holding, for
each seriesID in `[minSeriesID, maxSeriesID)` ascending, one `TimeSeries`
with the compiled (name, evaluated value) pairs in compiled order and a
single sample with that value and timestamp — provided the timestamp is
nonzero, no drawn value is a float64 zero, and every label name and every
evaluated label value is nonempty.  (Without those provisos the reference
marshaller omits zero-valued scalar fields that `writeFor` always writes;
see the counterexample.) -/
theorem stream_encoding_matches_proto_marshal (m : List (List Nat × List Nat))
    (ts : TemplateSet) (vals : Nat → Nat) (t mn mx : Int)
    (hc : compileLabelTemplates m = .ok ts) (hlt : mn < mx) (ht : t ≠ 0)
    (hvals : ∀ i, floatIsZero (vals i) = false)
    (he : ∀ sid : Int, mn ≤ sid → sid < mx → ∀ nk ∈ statics ts,
      nk.1 ≠ [] ∧ ∃ v, evalPure nk.2 sid = some v ∧ v ≠ []) :
    generateFromPrecompiledTemplates vals t mn mx ts =
      .ok (marshalWriteRequest (refSeries (statics ts) vals t (intRangeList mn mx) 0)) := by
  have hg := compileLabelTemplates_good m ts hc
  have hmem : ∀ sid ∈ mn :: intRangeList (mn + 1) mx, mn ≤ sid ∧ sid < mx := by
    intro sid hsid
    rcases List.mem_cons.mp hsid with rfl | hsid
    · exact ⟨le_refl _, hlt⟩
    · rw [intRangeList_mem] at hsid
      exact ⟨by omega, by omega⟩
  obtain ⟨tsF, hloop, _, _⟩ := genLoop_ok vals t (mn :: intRangeList (mn + 1) mx) 0 ts hg
    (by
      intro sid hsid nk hnk
      obtain ⟨hle, hltx⟩ := hmem sid hsid
      obtain ⟨_, v, hv, _⟩ := he sid hle hltx nk hnk
      exact ⟨v, hv⟩)
  unfold generateFromPrecompiledTemplates
  rw [hloop]
  rw [framedPure_marshal (statics ts) vals t ht hvals (mn :: intRangeList (mn + 1) mx) 0
    (by
      intro sid hsid nk hnk
      obtain ⟨hle, hltx⟩ := hmem sid hsid
      obtain ⟨hn, v, hv, hvne⟩ := he sid hle hltx nk hnk
      exact ⟨hn, by rw [hv]; simpa using hvne⟩)]
  rw [← intRangeList_cons mn mx hlt]

set_option maxRecDepth 10000 in
/-- C1 counterexample: with sample value 0.0 (bit pattern 0) the claim's
byte-for-byte equality fails — the streaming encoder always writes the
fixed64 value field, while the reference protobuf marshaller omits a zero
value, so the two byte strings differ. -/
theorem stream_encoding_zero_value_differs :
    compileLabelTemplates [([110], [118])] =
      GoResult.ok { compiledTemplates := [⟨[110], .ident [118], ⟨none⟩⟩],
                    labelValue := List.replicate 128 0 } ∧
    generateFromPrecompiledTemplates (fun _ => 0) 1 0 1
        { compiledTemplates := [⟨[110], .ident [118], ⟨none⟩⟩],
          labelValue := List.replicate 128 0 } ≠
      GoResult.ok (marshalWriteRequest
        (refSeries (statics { compiledTemplates := [⟨[110], .ident [118], ⟨none⟩⟩],
                              labelValue := List.replicate 128 0 })
          (fun _ => 0) 1 (intRangeList 0 1) 0)) := by
  constructor
  · decide
  · decide

set_option maxRecDepth 10000 in
/-- Witness for the amended C1: one label "n" with template "v" followed
by the series-id substitution, value bits 1, timestamp 1, ids 0 ..< 2. -/
theorem stream_encoding_matches_proto_marshal_witness :
    compileLabelTemplates [([110], [118] ++ sidPat ++ [125])] =
      GoResult.ok { compiledTemplates := [⟨[110], .sid [118] [], ⟨none⟩⟩],
                    labelValue := List.replicate 128 0 } ∧
    (0 : Int) < 2 ∧ (1 : Int) ≠ 0 ∧
    generateFromPrecompiledTemplates (fun _ => 1) 1 0 2
        { compiledTemplates := [⟨[110], .sid [118] [], ⟨none⟩⟩],
          labelValue := List.replicate 128 0 } =
      GoResult.ok (marshalWriteRequest
        (refSeries (statics { compiledTemplates := [⟨[110], .sid [118] [], ⟨none⟩⟩],
                              labelValue := List.replicate 128 0 })
          (fun _ => 1) 1 (intRangeList 0 2) 0)) :=
  ⟨by decide, by decide, by decide,
   stream_encoding_matches_proto_marshal [([110], [118] ++ sidPat ++ [125])]
     { compiledTemplates := [⟨[110], .sid [118] [], ⟨none⟩⟩],
       labelValue := List.replicate 128 0 }
     (fun _ => 1) 1 0 2 (by decide) (by decide) (by decide) (fun i => rfl)
     (by
       intro sid _ _ nk hnk
       simp only [statics, List.map_cons, List.map_nil, List.mem_singleton] at hnk
       subst hnk
       exact ⟨by decide, [118] ++ goIntBytes sid ++ [], rfl, by simp⟩)⟩

theorem natDecimal_digits : ∀ n : Nat, ∀ x ∈ natDecimal n, 48 ≤ x ∧ x ≤ 57 := by
  intro n
  induction n using Nat.strong_induction_on with
  | _ n ih =>
    rw [natDecimal_unfold]
    by_cases h : n < 10
    · rw [if_pos h]
      intro x hx
      simp at hx
      omega
    · rw [if_neg h]
      intro x hx
      rcases List.mem_append.mp hx with hx | hx
      · exact ih (n / 10) (Nat.div_lt_self (by omega) (by omega)) x hx
      · simp at hx
        omega

theorem natDecimal_ne_nil (n : Nat) : natDecimal n ≠ [] := by
  rw [natDecimal_unfold]
  by_cases h : n < 10 <;> simp [h]

theorem digitsToNat_natDecimal : ∀ n : Nat, digitsToNat (natDecimal n) = n := by
  intro n
  induction n using Nat.strong_induction_on with
  | _ n ih =>
    rw [natDecimal_unfold]
    by_cases h : n < 10
    · rw [if_pos h]
      simp [digitsToNat]
    · rw [if_neg h]
      unfold digitsToNat
      rw [List.foldl_append]
      have := ih (n / 10) (Nat.div_lt_self (by omega) (by omega))
      unfold digitsToNat at this
      rw [this]
      simp
      omega

theorem goIntBytes_members (d : Int) : ∀ x ∈ goIntBytes d, x = 45 ∨ (48 ≤ x ∧ x ≤ 57) := by
  unfold goIntBytes
  by_cases h : d < 0
  · rw [if_pos h]
    intro x hx
    rcases List.mem_cons.mp hx with rfl | hx
    · exact Or.inl rfl
    · exact Or.inr (natDecimal_digits _ x hx)
  · rw [if_neg h]
    intro x hx
    exact Or.inr (natDecimal_digits _ x hx)

theorem goAtoiDigits_natDecimal (neg : Bool) (n : Nat)
    (hlo : -9223372036854775808 ≤ (if neg then -(n : Int) else (n : Int)))
    (hhi : (if neg then -(n : Int) else (n : Int)) ≤ 9223372036854775807) :
    goAtoi.goAtoiDigits neg (natDecimal n) =
      some (if neg then -(n : Int) else (n : Int)) := by
  unfold goAtoi.goAtoiDigits
  rw [if_neg (by simpa using natDecimal_ne_nil n)]
  have hall : (natDecimal n).all (fun c => decide (48 ≤ c ∧ c ≤ 57)) = true := by
    rw [List.all_eq_true]
    intro c hc
    simpa using natDecimal_digits n c hc
  rw [if_pos hall]
  simp only [digitsToNat_natDecimal]
  rw [if_pos ⟨hlo, hhi⟩]

theorem goAtoi_goIntBytes (d : Int) (hlo : -9223372036854775808 ≤ d)
    (hhi : d ≤ 9223372036854775807) : goAtoi (goIntBytes d) = some d := by
  by_cases h : d < 0
  · have hb : goIntBytes d = 45 :: natDecimal d.natAbs := by
      unfold goIntBytes
      rw [if_pos h]
    have habs : ((d.natAbs : Int)) = -d := Int.ofNat_natAbs_of_nonpos (by omega)
    rw [hb]
    rw [show goAtoi (45 :: natDecimal d.natAbs) =
      goAtoi.goAtoiDigits true (natDecimal d.natAbs) from rfl]
    rw [goAtoiDigits_natDecimal true d.natAbs (by simp [habs]; try omega) (by simp [habs]; try omega)]
    simp [habs]
  · have hb : goIntBytes d = natDecimal d.toNat := by
      unfold goIntBytes
      rw [if_neg h]
    obtain ⟨c, ds, hcd⟩ : ∃ c ds, natDecimal d.toNat = c :: ds := by
      cases hx : natDecimal d.toNat with
      | nil => exact absurd hx (natDecimal_ne_nil _)
      | cons c ds => exact ⟨c, ds, rfl⟩
    have hc : 48 ≤ c ∧ c ≤ 57 := natDecimal_digits d.toNat c (by rw [hcd]; simp)
    have hstep : goAtoi (c :: ds) = goAtoi.goAtoiDigits false (c :: ds) := by
      unfold goAtoi
      split
      · rename_i heq
        injection heq with h1 h2
        omega
      · rename_i heq
        injection heq with h1 h2
        omega
      · rfl
    rw [hb, hcd, hstep, ← hcd]
    rw [goAtoiDigits_natDecimal false d.toNat (by simp; try omega) (by simp; try omega)]
    simp
    omega

theorem strIndex_single (c : Nat) : ∀ (l r : List Nat), c ∉ l →
    strIndex [c] (l ++ c :: r) = some l.length := by
  intro l
  induction l with
  | nil =>
    intro r _
    simp [strIndex, listStartsWith]
  | cons a l ih =>
    intro r hc
    have hca : (c == a) = false :=
      beq_eq_false_iff_ne.mpr (fun h => hc (by simp [h]))
    simp [strIndex, listStartsWith, hca, ih r (fun h => hc (List.mem_cons_of_mem a h))]

theorem take_at_len (A B : List Nat) (n : Nat) (h : A.length = n) : (A ++ B).take n = A := by
  subst h
  exact List.take_left A B

theorem drop_at_len (A B : List Nat) (n : Nat) (h : A.length = n) : (A ++ B).drop n = B := by
  subst h
  exact List.drop_left A B

/-- Decomposition facts for a template of the shape
prefix ++ marker ++ operator ++ divisor-text ++ brace ++ suffix. -/
theorem shape_facts (pre suf g : List Nat) (op : Nat) (hop : op ≠ 125)
    (hg : ∀ x ∈ g, x ≠ 125) :
    (pre ++ (sidPat ++ (op :: (g ++ (125 :: suf))))).take pre.length = pre ∧
    (pre ++ (sidPat ++ (op :: (g ++ (125 :: suf))))).drop (pre.length + 11) =
      op :: (g ++ (125 :: suf)) ∧
    strIndex [125] ((pre ++ (sidPat ++ (op :: (g ++ (125 :: suf))))).drop pre.length) =
      some (12 + g.length) ∧
    seg (pre ++ (sidPat ++ (op :: (g ++ (125 :: suf))))) (pre.length + 12)
      (pre.length + (12 + g.length)) = g ∧
    (pre ++ (sidPat ++ (op :: (g ++ (125 :: suf))))).drop
      (pre.length + (12 + g.length) + 1) = suf := by
  refine ⟨?_, ?_, ?_, ?_, ?_⟩
  · exact take_at_len pre _ pre.length rfl
  · rw [show pre ++ (sidPat ++ (op :: (g ++ (125 :: suf)))) =
      (pre ++ sidPat) ++ (op :: (g ++ (125 :: suf))) by simp]
    exact drop_at_len _ _ _ (by simp [sidPat])
  · rw [show (pre ++ (sidPat ++ (op :: (g ++ (125 :: suf))))) = pre ++
      ((sidPat ++ (op :: g)) ++ (125 :: suf)) by simp]
    rw [drop_at_len pre _ pre.length rfl]
    rw [strIndex_single 125 (sidPat ++ (op :: g)) suf ?hnotin]
    · simp [sidPat]
      omega
    case hnotin =>
      intro hmem
      rcases List.mem_append.mp hmem with hmem | hmem
      · revert hmem
        decide
      · rcases List.mem_cons.mp hmem with heq | hmem
        · exact hop heq.symm
        · exact hg 125 hmem rfl
  · unfold seg
    rw [show (pre ++ (sidPat ++ (op :: (g ++ (125 :: suf))))) =
      ((pre ++ (sidPat ++ [op])) ++ g) ++ (125 :: suf) by simp]
    rw [take_at_len _ _ _ (by simp [sidPat]; try omega)]
    exact drop_at_len _ _ _ (by simp [sidPat]; try omega)
  · rw [show (pre ++ (sidPat ++ (op :: (g ++ (125 :: suf))))) =
      ((pre ++ (sidPat ++ (op :: (g ++ [125])))) ++ suf) by simp]
    exact drop_at_len _ _ _ (by simp [sidPat]; try omega)

/-- C2 (amended): evaluation semantics of compiled templates.  A template
with no occurrence of the series-id marker compiles to the identity
generator; prefix-marker-brace-suffix splices the decimal series id;
the division form splices the truncated quotient provided the literal
divisor N is nonzero (and in the int64 range, and the series id is
non-negative); the modulo form splices `seriesID mod N` provided N ≥ 1 and
the series id is non-negative.  For N = 0 either operator form compiles
but evaluation divides by zero (see the counterexample), and a negative N
panics the modulo compilation. -/
theorem compiled_template_evaluation :
    (∀ (t : List Nat) (sid : Int) (st : GenState), strIndex sidPat t = none →
      compileTemplate t = .ok (.ident t) ∧
      appendByte (.ident t) st [] sid = .ok (st, t)) ∧
    (∀ (pre suf : List Nat) (sid : Int),
      strIndex sidPat (pre ++ (sidPat ++ (125 :: suf))) = some pre.length →
      compileTemplate (pre ++ (sidPat ++ (125 :: suf))) = .ok (.sid pre suf) ∧
      appendByte (.sid pre suf) ⟨none⟩ [] sid = .ok (⟨none⟩, pre ++ goIntBytes sid ++ suf)) ∧
    (∀ (pre suf : List Nat) (sid d : Int),
      strIndex sidPat (pre ++ (sidPat ++ (47 :: (goIntBytes d ++ (125 :: suf))))) =
        some pre.length →
      d ≠ 0 → 0 ≤ sid → -9223372036854775808 ≤ d → d ≤ 9223372036854775807 →
      compileTemplate (pre ++ (sidPat ++ (47 :: (goIntBytes d ++ (125 :: suf))))) =
        .ok (.div pre suf d) ∧
      ∃ st2, appendByte (.div pre suf d) ⟨none⟩ [] sid =
        .ok (st2, pre ++ goIntBytes (sid.tdiv d) ++ suf)) ∧
    (∀ (pre suf : List Nat) (sid d : Int),
      strIndex sidPat (pre ++ (sidPat ++ (37 :: (goIntBytes d ++ (125 :: suf))))) =
        some pre.length →
      1 ≤ d → 0 ≤ sid → d ≤ 9223372036854775807 →
      ∃ table, compileTemplate (pre ++ (sidPat ++ (37 :: (goIntBytes d ++ (125 :: suf))))) =
        .ok (.mod table d) ∧
      appendByte (.mod table d) ⟨none⟩ [] sid =
        .ok (⟨none⟩, pre ++ goIntBytes (sid.tmod d) ++ suf)) := by
  refine ⟨?_, ?_, ?_, ?_⟩
  · intro t sid st h
    constructor
    · simp only [compileTemplate, h]
    · rfl
  · intro pre suf sid h
    have htake : (pre ++ (sidPat ++ (125 :: suf))).take pre.length = pre :=
      take_at_len pre _ pre.length rfl
    have hdrop11 : (pre ++ (sidPat ++ (125 :: suf))).drop (pre.length + 11) = 125 :: suf := by
      rw [show pre ++ (sidPat ++ (125 :: suf)) = (pre ++ sidPat) ++ (125 :: suf) by simp]
      exact drop_at_len _ _ _ (by simp [sidPat])
    have hdrop12 : (pre ++ (sidPat ++ (125 :: suf))).drop (pre.length + 12) = suf := by
      rw [show pre ++ (sidPat ++ (125 :: suf)) = (pre ++ (sidPat ++ [125])) ++ suf by simp]
      exact drop_at_len _ _ _ (by simp [sidPat])
    constructor
    · simp only [compileTemplate, h, hdrop11, List.head?_cons, htake, hdrop12]
      simp
    · rfl
  · intro pre suf sid d h hd0 hsid hdlo hdhi
    obtain ⟨htake, hdrop11, hfind, hseg, hdropEnd⟩ :=
      shape_facts pre suf (goIntBytes d) 47 (by decide)
        (fun x hx => by rcases goIntBytes_members d x hx with hh | hh <;> omega)
    constructor
    · simp only [compileTemplate, h, hdrop11, List.head?_cons, hfind, hseg,
        goAtoi_goIntBytes d hdlo hdhi, htake, hdropEnd]
      simp
    · have hgd : goDiv sid d = some (sid.tdiv d) := by
        unfold goDiv
        rw [if_neg hd0, if_neg (by omega)]
      refine ⟨⟨some (sid.tdiv d, pre ++ goIntBytes (sid.tdiv d) ++ suf)⟩, ?_⟩
      simp only [appendByte, hgd]
      simp
  · intro pre suf sid d h hd1 hsid hdhi
    have hd0 : d ≠ 0 := by omega
    obtain ⟨htake, hdrop11, hfind, hseg, hdropEnd⟩ :=
      shape_facts pre suf (goIntBytes d) 37 (by decide)
        (fun x hx => by rcases goIntBytes_members d x hx with hh | hh <;> omega)
    refine ⟨(List.range d.toNat).map (fun j =>
      (pre ++ (sidPat ++ (37 :: (goIntBytes d ++ (125 :: suf))))).take pre.length ++
        natDecimal j ++
        (pre ++ (sidPat ++ (37 :: (goIntBytes d ++ (125 :: suf))))).drop
          (pre.length + (12 + (goIntBytes d).length) + 1)), ?_, ?_⟩
    · simp only [compileTemplate, h, hdrop11, List.head?_cons, hfind, hseg,
        goAtoi_goIntBytes d (by omega) hdhi]
      rw [if_neg (by omega : ¬ d < 0)]
      simp
    · have hgm : goMod sid d = some (sid.tmod d) := by
        unfold goMod
        rw [if_neg hd0]
      have hnonneg : 0 ≤ sid.tmod d := Int.tmod_nonneg d hsid
      have hlt : sid.tmod d < d := Int.tmod_lt_of_pos sid (by omega)
      simp only [htake, hdropEnd]
      have hltlen : (sid.tmod d).toNat <
          ((List.range d.toNat).map (fun j => pre ++ natDecimal j ++ suf)).length := by
        simp
        omega
      simp only [appendByte, hgm]
      rw [if_neg (not_lt.mpr hnonneg), dif_pos hltlen]
      have hget : ((List.range d.toNat).map (fun j => pre ++ natDecimal j ++ suf)).get
          ⟨(sid.tmod d).toNat, hltlen⟩ = pre ++ natDecimal (sid.tmod d).toNat ++ suf := by
        simp
      rw [hget]
      have hgib : goIntBytes (sid.tmod d) = natDecimal (sid.tmod d).toNat := by
        unfold goIntBytes
        rw [if_neg (not_lt.mpr hnonneg)]
      rw [hgib]
      simp

set_option maxRecDepth 10000 in
/-- Witness for the amended C2 at the spec's examples: "something " and
" else" around the three substitution forms, series id 12, divisor 6;
the spliced results are "something 12 else", "something 2 else" and
"something 0 else" (byte lists). -/
theorem compiled_template_evaluation_witness :
    compileTemplate ([115, 111, 109, 101, 116, 104, 105, 110, 103, 32] ++
        (sidPat ++ (125 :: [32, 101, 108, 115, 101]))) =
      .ok (.sid [115, 111, 109, 101, 116, 104, 105, 110, 103, 32] [32, 101, 108, 115, 101]) ∧
    appendByte (.sid [115, 111, 109, 101, 116, 104, 105, 110, 103, 32] [32, 101, 108, 115, 101])
        ⟨none⟩ [] 12 =
      .ok (⟨none⟩, [115, 111, 109, 101, 116, 104, 105, 110, 103, 32] ++ goIntBytes 12 ++
        [32, 101, 108, 115, 101]) ∧
    [115, 111, 109, 101, 116, 104, 105, 110, 103, 32] ++ goIntBytes 12 ++
        [32, 101, 108, 115, 101] =
      [115, 111, 109, 101, 116, 104, 105, 110, 103, 32, 49, 50, 32, 101, 108, 115, 101] ∧
    (∃ st2, appendByte (.div [115, 111, 109, 101, 116, 104, 105, 110, 103, 32]
        [32, 101, 108, 115, 101] 6) ⟨none⟩ [] 12 =
      .ok (st2, [115, 111, 109, 101, 116, 104, 105, 110, 103, 32] ++
        goIntBytes ((12 : Int).tdiv 6) ++ [32, 101, 108, 115, 101])) ∧
    [115, 111, 109, 101, 116, 104, 105, 110, 103, 32] ++ goIntBytes ((12 : Int).tdiv 6) ++
        [32, 101, 108, 115, 101] =
      [115, 111, 109, 101, 116, 104, 105, 110, 103, 32, 50, 32, 101, 108, 115, 101] ∧
    (∃ table, compileTemplate ([115, 111, 109, 101, 116, 104, 105, 110, 103, 32] ++
        (sidPat ++ (37 :: (goIntBytes 6 ++ (125 :: [32, 101, 108, 115, 101]))))) =
        .ok (.mod table 6) ∧
      appendByte (.mod table 6) ⟨none⟩ [] 12 =
        .ok (⟨none⟩, [115, 111, 109, 101, 116, 104, 105, 110, 103, 32] ++
          goIntBytes ((12 : Int).tmod 6) ++ [32, 101, 108, 115, 101])) ∧
    [115, 111, 109, 101, 116, 104, 105, 110, 103, 32] ++ goIntBytes ((12 : Int).tmod 6) ++
        [32, 101, 108, 115, 101] =
      [115, 111, 109, 101, 116, 104, 105, 110, 103, 32, 48, 32, 101, 108, 115, 101] :=
  ⟨(compiled_template_evaluation.2.1 [115, 111, 109, 101, 116, 104, 105, 110, 103, 32]
      [32, 101, 108, 115, 101] 12 (by decide)).1,
   (compiled_template_evaluation.2.1 [115, 111, 109, 101, 116, 104, 105, 110, 103, 32]
      [32, 101, 108, 115, 101] 12 (by decide)).2,
   by decide,
   (compiled_template_evaluation.2.2.1 [115, 111, 109, 101, 116, 104, 105, 110, 103, 32]
      [32, 101, 108, 115, 101] 12 6 (by decide) (by decide) (by decide) (by decide)
      (by decide)).2,
   by decide,
   compiled_template_evaluation.2.2.2 [115, 111, 109, 101, 116, 104, 105, 110, 103, 32]
      [32, 101, 108, 115, 101] 12 6 (by decide) (by decide) (by decide) (by decide),
   by decide⟩

theorem compile_mod_inv (t : List Nat) (table : List (List Nat)) (d : Int)
    (h : compileTemplate t = .ok (.mod table d)) :
    0 ≤ d ∧ table.length = d.toNat := by
  unfold compileTemplate at h
  split at h
  · simp at h
  · split at h
    · cases h
    · split at h
      · simp at h
      · split at h
        · split at h
          · cases h
          · split at h
            · cases h
            · split at h
              · cases h
              · rename_i hneg
                simp only [GoResult.ok.injEq, GenKind.mod.injEq] at h
                obtain ⟨htab, hd⟩ := h
                subst hd
                refine ⟨by omega, ?_⟩
                rw [← htab]
                simp
        · split at h
          · split at h
            · cases h
            · split at h
              · cases h
              · simp at h
          · cases h

/-- C8 (amended): for every compiled generator and non-negative series id,
evaluation is well-defined provided the parsed constant is positive
(modulo form: the table index is in bounds) or nonzero (division form);
compilation does not reject a zero constant — with N = 0 both forms
compile and evaluation divides by zero (see counterexample) — and a
negative modulo constant panics at compilation rather than returning an
error. -/
theorem compiled_generator_eval_safe (t : List Nat) (k : GenKind)
    (hc : compileTemplate t = .ok k) (sid : Int) (hsid : 0 ≤ sid) :
    (∀ table d, k = .mod table d → 1 ≤ d →
      (sid.tmod d).toNat < table.length ∧ ∃ v, evalPure k sid = some v) ∧
    (∀ pre suf d, k = .div pre suf d → d ≠ 0 → ∃ v, evalPure k sid = some v) ∧
    (∀ t0, k = .ident t0 → ∃ v, evalPure k sid = some v) ∧
    (∀ pre suf, k = .sid pre suf → ∃ v, evalPure k sid = some v) := by
  refine ⟨?_, ?_, ?_, ?_⟩
  · intro table d hk hd1
    subst hk
    obtain ⟨hd0, hlen⟩ := compile_mod_inv t table d hc
    have hnn : 0 ≤ sid.tmod d := Int.tmod_nonneg d hsid
    have hlt : sid.tmod d < d := Int.tmod_lt_of_pos sid (by omega)
    have hbound : (sid.tmod d).toNat < table.length := by omega
    refine ⟨hbound, table.get ⟨(sid.tmod d).toNat, hbound⟩, ?_⟩
    have hgm : goMod sid d = some (sid.tmod d) := by
      unfold goMod
      rw [if_neg (by omega)]
    simp only [evalPure, hgm]
    rw [if_neg (not_lt.mpr hnn)]
    exact List.get?_eq_get hbound
  · intro pre suf d hk hd0
    subst hk
    have hgd : goDiv sid d = some (sid.tdiv d) := by
      unfold goDiv
      rw [if_neg hd0, if_neg (by omega)]
    exact ⟨pre ++ goIntBytes (sid.tdiv d) ++ suf, by simp [evalPure, hgd]⟩
  · intro t0 hk
    subst hk
    exact ⟨t0, rfl⟩
  · intro pre suf hk
    subst hk
    exact ⟨pre ++ goIntBytes sid ++ suf, rfl⟩

/-- Witness for the amended C8 on the modulo template with constant 3 at
series id 7. -/
theorem compiled_generator_eval_safe_witness :
    compileTemplate (sidPat ++ [37, 51, 125]) = .ok (.mod [[48], [49], [50]] 3) ∧
    ((7 : Int).tmod 3).toNat < ([[48], [49], [50]] : List (List Nat)).length ∧
    ∃ v, evalPure (.mod [[48], [49], [50]] 3) 7 = some v :=
  ⟨by decide,
   ((compiled_generator_eval_safe (sidPat ++ [37, 51, 125]) (.mod [[48], [49], [50]] 3)
      (by decide) 7 (by decide)).1 [[48], [49], [50]] 3 rfl (by decide)).1,
   ((compiled_generator_eval_safe (sidPat ++ [37, 51, 125]) (.mod [[48], [49], [50]] 3)
      (by decide) 7 (by decide)).1 [[48], [49], [50]] 3 rfl (by decide)).2⟩

/-- C4 (amended): `compileTemplate` returns an error exactly when the first
occurrence of the series-id marker is followed by a character other than
closing brace, percent or slash ("unsupported template"), or by percent or
slash with no closing brace afterwards ("no closing bracket"), or with a
divisor text that does not parse as an int64 ("cannot parse divisor" /
strconv error); and it panics — rather than compiling successfully as the
claim stated — exactly when the marker is a suffix of the template (the
lookahead reads past the end) or when a modulo divisor parses to a
negative integer (`make` with negative length). -/
theorem compileTemplate_error_classification (t : List Nat) :
    ((∃ e, compileTemplate t = .err e) ↔
      ∃ i, strIndex sidPat t = some i ∧
        ((∃ c, (t.drop (i + 11)).head? = some c ∧ c ≠ 125 ∧ c ≠ 37 ∧ c ≠ 47) ∨
         ((∃ c, (t.drop (i + 11)).head? = some c ∧ (c = 37 ∨ c = 47)) ∧
           (strIndex [125] (t.drop i) = none ∨
            ∃ e2, strIndex [125] (t.drop i) = some e2 ∧
              goAtoi (seg t (i + 12) (i + e2)) = none)))) ∧
    (compileTemplate t = .panicked ↔
      ∃ i, strIndex sidPat t = some i ∧
        ((t.drop (i + 11)).head? = none ∨
         ∃ e2 d, (t.drop (i + 11)).head? = some 37 ∧ strIndex [125] (t.drop i) = some e2 ∧
           goAtoi (seg t (i + 12) (i + e2)) = some d ∧ d < 0)) := by
  cases hfi : strIndex sidPat t with
  | none =>
    have hct : compileTemplate t = .ok (.ident t) := by
      simp only [compileTemplate, hfi]
    refine ⟨⟨?_, ?_⟩, ?_, ?_⟩
    · rintro ⟨e, he⟩
      rw [hct] at he
      cases he
    · rintro ⟨i, hi, _⟩
      cases hi
    · intro hp
      rw [hct] at hp
      cases hp
    · rintro ⟨i, hi, _⟩
      cases hi
  | some i =>
    cases hhd : (t.drop (i + 11)).head? with
    | none =>
      have hct : compileTemplate t = .panicked := by
        simp only [compileTemplate, hfi, hhd]
      refine ⟨⟨?_, ?_⟩, ?_, ?_⟩
      · rintro ⟨e, he⟩
        rw [hct] at he
        cases he
      · rintro ⟨i', hi', hcase⟩
        injection hi' with hi'
        subst hi'
        rcases hcase with ⟨c, hc, _⟩ | ⟨⟨c, hc, _⟩, _⟩ <;> rw [hhd] at hc <;> cases hc
      · intro _
        exact ⟨i, rfl, Or.inl hhd⟩
      · intro _
        exact hct
    | some c =>
      by_cases h125 : c = 125
      · subst h125
        have hct : compileTemplate t = .ok (.sid (t.take i) (t.drop (i + 12))) := by
          simp only [compileTemplate, hfi, hhd]
          simp
        refine ⟨⟨?_, ?_⟩, ?_, ?_⟩
        · rintro ⟨e, he⟩
          rw [hct] at he
          cases he
        · rintro ⟨i', hi', hcase⟩
          injection hi' with hi'
          subst hi'
          rcases hcase with ⟨c', hc', hne, _, _⟩ | ⟨⟨c', hc', hor⟩, _⟩ <;>
              (rw [hhd] at hc'; injection hc' with hc'; subst hc')
          · exact (hne rfl).elim
          · rcases hor with h | h <;> exact absurd h (by decide)
        · intro hp
          rw [hct] at hp
          cases hp
        · rintro ⟨i', hi', hcase⟩
          injection hi' with hi'
          subst hi'
          rcases hcase with hc | ⟨e2, d, hc, _⟩
          · rw [hhd] at hc
            cases hc
          · rw [hhd] at hc
            injection hc with hc
            exact absurd hc (by decide)
      · by_cases h37 : c = 37
        · subst h37
          cases hcb : strIndex [125] (t.drop i) with
          | none =>
            have hct : compileTemplate t = .err "no closing bracket in template" := by
              simp only [compileTemplate, hfi, hhd, hcb]
              simp
            refine ⟨⟨?_, ?_⟩, ?_, ?_⟩
            · intro _
              exact ⟨i, rfl, Or.inr ⟨⟨37, hhd, Or.inl rfl⟩, Or.inl hcb⟩⟩
            · intro _
              exact ⟨_, hct⟩
            · intro hp
              rw [hct] at hp
              cases hp
            · rintro ⟨i', hi', hcase⟩
              injection hi' with hi'
              subst hi'
              rcases hcase with hc | ⟨e2, d, _, hcl, _⟩
              · rw [hhd] at hc
                cases hc
              · rw [hcb] at hcl
                cases hcl
          | some e2 =>
            cases hat : goAtoi (seg t (i + 12) (i + e2)) with
            | none =>
              have hct : compileTemplate t =
                  .err "cannot parse divisor of the module operator" := by
                simp only [compileTemplate, hfi, hhd, hcb, hat]
                simp
              refine ⟨⟨?_, ?_⟩, ?_, ?_⟩
              · intro _
                exact ⟨i, rfl, Or.inr ⟨⟨37, hhd, Or.inl rfl⟩, Or.inr ⟨e2, hcb, hat⟩⟩⟩
              · intro _
                exact ⟨_, hct⟩
              · intro hp
                rw [hct] at hp
                cases hp
              · rintro ⟨i', hi', hcase⟩
                injection hi' with hi'
                subst hi'
                rcases hcase with hc | ⟨e2', d, _, hcl, hat', _⟩
                · rw [hhd] at hc
                  cases hc
                · rw [hcb] at hcl
                  injection hcl with hcl
                  subst hcl
                  rw [hat] at hat'
                  cases hat'
            | some d =>
              by_cases hdneg : d < 0
              · have hct : compileTemplate t = .panicked := by
                  simp only [compileTemplate, hfi, hhd, hcb, hat]
                  simp [hdneg]
                refine ⟨⟨?_, ?_⟩, ?_, ?_⟩
                · rintro ⟨e, he⟩
                  rw [hct] at he
                  cases he
                · rintro ⟨i', hi', hcase⟩
                  injection hi' with hi'
                  subst hi'
                  rcases hcase with ⟨c', hc', _, hne37, _⟩ | ⟨⟨c', hc', _⟩, hcl⟩
                  · rw [hhd] at hc'
                    injection hc' with hc'
                    subst hc'
                    exact (hne37 rfl).elim
                  · rcases hcl with hcl | ⟨e2', he2', hat'⟩
                    · rw [hcb] at hcl
                      cases hcl
                    · rw [hcb] at he2'
                      injection he2' with he2'
                      subst he2'
                      rw [hat] at hat'
                      cases hat'
                · intro _
                  exact ⟨i, rfl, Or.inr ⟨e2, d, hhd, hcb, hat, hdneg⟩⟩
                · intro _
                  exact hct
              · have hct : ∃ table, compileTemplate t = .ok (.mod table d) := by
                  refine ⟨(List.range d.toNat).map fun j =>
                    t.take i ++ natDecimal j ++ t.drop (i + e2 + 1), ?_⟩
                  simp only [compileTemplate, hfi, hhd, hcb, hat]
                  simp [hdneg]
                obtain ⟨table, hct⟩ := hct
                refine ⟨⟨?_, ?_⟩, ?_, ?_⟩
                · rintro ⟨e, he⟩
                  rw [hct] at he
                  cases he
                · rintro ⟨i', hi', hcase⟩
                  injection hi' with hi'
                  subst hi'
                  rcases hcase with ⟨c', hc', _, hne37, _⟩ | ⟨⟨c', hc', _⟩, hcl⟩
                  · rw [hhd] at hc'
                    injection hc' with hc'
                    subst hc'
                    exact (hne37 rfl).elim
                  · rcases hcl with hcl | ⟨e2', he2', hat'⟩
                    · rw [hcb] at hcl
                      cases hcl
                    · rw [hcb] at he2'
                      injection he2' with he2'
                      subst he2'
                      rw [hat] at hat'
                      cases hat'
                · intro hp
                  rw [hct] at hp
                  cases hp
                · rintro ⟨i', hi', hcase⟩
                  injection hi' with hi'
                  subst hi'
                  rcases hcase with hc | ⟨e2', d', _, hcl, hat', hdneg'⟩
                  · rw [hhd] at hc
                    cases hc
                  · rw [hcb] at hcl
                    injection hcl with hcl
                    subst hcl
                    rw [hat] at hat'
                    injection hat' with hat'
                    subst hat'
                    exact (hdneg hdneg').elim
        · by_cases h47 : c = 47
          · subst h47
            cases hcb : strIndex [125] (t.drop i) with
            | none =>
              have hct : compileTemplate t = .err "no closing bracket in template" := by
                simp only [compileTemplate, hfi, hhd, hcb]
                simp
              refine ⟨⟨?_, ?_⟩, ?_, ?_⟩
              · intro _
                exact ⟨i, rfl, Or.inr ⟨⟨47, hhd, Or.inr rfl⟩, Or.inl hcb⟩⟩
              · intro _
                exact ⟨_, hct⟩
              · intro hp
                rw [hct] at hp
                cases hp
              · rintro ⟨i', hi', hcase⟩
                injection hi' with hi'
                subst hi'
                rcases hcase with hc | ⟨e2, d, hc, _, _, _⟩
                · rw [hhd] at hc
                  cases hc
                · rw [hhd] at hc
                  injection hc with hc
                  exact absurd hc (by decide)
            | some e2 =>
              cases hat : goAtoi (seg t (i + 12) (i + e2)) with
              | none =>
                have hct : compileTemplate t = .err "strconv parse error" := by
                  simp only [compileTemplate, hfi, hhd, hcb, hat]
                  simp
                refine ⟨⟨?_, ?_⟩, ?_, ?_⟩
                · intro _
                  exact ⟨i, rfl, Or.inr ⟨⟨47, hhd, Or.inr rfl⟩, Or.inr ⟨e2, hcb, hat⟩⟩⟩
                · intro _
                  exact ⟨_, hct⟩
                · intro hp
                  rw [hct] at hp
                  cases hp
                · rintro ⟨i', hi', hcase⟩
                  injection hi' with hi'
                  subst hi'
                  rcases hcase with hc | ⟨e2', d, hc, _, _, _⟩
                  · rw [hhd] at hc
                    cases hc
                  · rw [hhd] at hc
                    injection hc with hc
                    exact absurd hc (by decide)
              | some d =>
                have hct : compileTemplate t = .ok (.div (t.take i) (t.drop (i + e2 + 1)) d) := by
                  simp only [compileTemplate, hfi, hhd, hcb, hat]
                  simp
                refine ⟨⟨?_, ?_⟩, ?_, ?_⟩
                · rintro ⟨e, he⟩
                  rw [hct] at he
                  cases he
                · rintro ⟨i', hi', hcase⟩
                  injection hi' with hi'
                  subst hi'
                  rcases hcase with ⟨c', hc', _, _, hne47⟩ | ⟨⟨c', hc', _⟩, hcl⟩
                  · rw [hhd] at hc'
                    injection hc' with hc'
                    subst hc'
                    exact (hne47 rfl).elim
                  · rcases hcl with hcl | ⟨e2', he2', hat'⟩
                    · rw [hcb] at hcl
                      cases hcl
                    · rw [hcb] at he2'
                      injection he2' with he2'
                      subst he2'
                      rw [hat] at hat'
                      cases hat'
                · intro hp
                  rw [hct] at hp
                  cases hp
                · rintro ⟨i', hi', hcase⟩
                  injection hi' with hi'
                  subst hi'
                  rcases hcase with hc | ⟨e2', d', hc, _, _, _⟩
                  · rw [hhd] at hc
                    cases hc
                  · rw [hhd] at hc
                    injection hc with hc
                    exact absurd hc (by decide)
          · have hct : compileTemplate t = .err "unsupported template" := by
              simp only [compileTemplate, hfi, hhd]
              simp [h125, h37, h47]
            refine ⟨⟨?_, ?_⟩, ?_, ?_⟩
            · intro _
              exact ⟨i, rfl, Or.inl ⟨c, hhd, h125, h37, h47⟩⟩
            · intro _
              exact ⟨_, hct⟩
            · intro hp
              rw [hct] at hp
              cases hp
            · rintro ⟨i', hi', hcase⟩
              injection hi' with hi'
              subst hi'
              rcases hcase with hc | ⟨e2', d', hc, _, _, _⟩
              · rw [hhd] at hc
                cases hc
              · rw [hhd] at hc
                injection hc with hc
                subst hc
                exact (h37 rfl).elim

set_option maxRecDepth 10000 in
/-- Witness for the amended C4: the spec's example template "something "
followed by the series-id marker and " else" (no operator, no closing
brace) is classified as an error. -/
theorem compileTemplate_error_classification_witness :
    GoResult.isErrB (compileTemplate ([115, 111, 109, 101, 116, 104, 105, 110, 103, 32] ++
      (sidPat ++ [32, 101, 108, 115, 101]))) = true := by
  obtain ⟨e, he⟩ := (compileTemplate_error_classification
    ([115, 111, 109, 101, 116, 104, 105, 110, 103, 32] ++
      (sidPat ++ [32, 101, 108, 115, 101]))).1.mpr
    ⟨10, by decide, Or.inl ⟨32, by decide, by decide, by decide, by decide⟩⟩
  rw [he]
  rfl
